import Mathlib

/-!
Verification development for the geobind repository.

The Python sources are shallowly embedded: numpy arrays of rationals become
Lean lists or functions over `ℚ`, raised Python exceptions become `Except`
errors carrying the exception name, and external collaborators (the mesh
spatial index, the SVD superimposer, the chemical-component catalog) are
carried as explicit parameters, mirroring how the code receives them.
-/

/-! ## Basic geometry and numpy helpers -/

abbrev P3 := ℚ × ℚ × ℚ

abbrev Mat3 := P3 × P3 × P3

/-- numpy `np.clip(x, lo, hi)`: `hi` wins over `lo` when the bounds cross. -/
def npClip (x lo hi : ℚ) : ℚ := min (max x lo) hi

/-! ## geobind/mesh/map_point_features_to_mesh.py -/

/-- Embedding of `wfn` (map_point_features_to_mesh.py lines 8-26).  `dist` is
the numpy array of distances; the returned weights correspond elementwise. -/
def wfn (dist : List ℚ) (cutoff : ℚ) (offset : ℚ) (weight_method : String)
    (minw : ℚ) (maxw : ℚ) : Except String (List ℚ) :=
  if minw ≥ maxw then .error "ValueError: minw must be < maxw!"
  else if weight_method = "inverse_distance" then
    let b := maxw / (minw - maxw)
    let a := minw * b
    .ok (dist.map (fun d => npClip (a / ((cutoff - d + offset) / cutoff + b)) minw maxw))
  else if weight_method = "linear" then
    let b := minw
    let a := maxw - minw
    .ok (dist.map (fun d => npClip (a * ((cutoff - d + offset) / cutoff) + b) minw maxw))
  else if weight_method = "binary" then
    .ok (List.replicate dist.length 1)
  else .error ("ValueError: Unknown value of argument weight_method: " ++ weight_method)

/-- The mesh is an external collaborator (built by trimesh); the embedding
carries its spatial queries as function fields.  `verticesInBall p t` returns
the indices and Euclidean distances of the vertices within the closed ball of
radius `t` around `p`; `nearestVertex` returns the nearest vertex the same way;
`neighbors` is the vertex adjacency used by Laplacian smoothing. -/
structure Mesh where
  num_vertices : Nat
  verticesInBall : P3 → ℚ → List Nat × List ℚ
  nearestVertex : P3 → List Nat × List ℚ
  neighbors : Nat → List Nat

/-- Modelled from the spec: `laplacianSmoothing` (geobind/mesh, not under
src/).  The spec only says "apply one pass of Laplacian smoothing over the
mesh topology to X"; modelled as replacing each vertex row by the average of
the row and its topological neighbours. -/
def laplacianSmoothing (mesh : Mesh) (X : Nat → Nat → ℚ) : Nat → Nat → ℚ :=
  fun i j =>
    let ns := i :: mesh.neighbors i
    (ns.map (fun v => X v j)).sum / (ns.length : ℚ)

/-- Values of column `j` of the `n × _` matrix `X`. -/
def colValues (n : Nat) (X : Nat → Nat → ℚ) (j : Nat) : List ℚ :=
  (List.range n).map (fun i => X i j)

/-- Arithmetic mean of a list of rationals (numpy `mean`; `0` on `[]`). -/
def rmean (l : List ℚ) : ℚ := l.sum / (l.length : ℚ)

/-- Modelled from the spec: `clipOutliers` (geobind.utils, not under src/).
The spec only says "outlier clipping is applied to X along the feature axis";
modelled as clipping every entry of column `j` to a dispersion fence
`[μ_j - 3·dev_j, μ_j + 3·dev_j]` around the column mean `μ_j`, with `dev_j`
the mean absolute deviation.  Any location/dispersion fence of this shape
leaves a constant column unchanged, which is the only property the claims
depend on. -/
def clipOutliers (n : Nat) (X : Nat → Nat → ℚ) : Nat → Nat → ℚ :=
  fun i j =>
    let col := colValues n X j
    let mu := rmean col
    let dev := rmean (col.map (fun x => |x - mu|))
    npClip (X i j) (mu - 3 * dev) (mu + 3 * dev)

/-- Overwrite row `i0` of the matrix `M` with `r`. -/
def rowUpdate (M : Nat → Nat → ℚ) (i0 : Nat) (r : Nat → ℚ) : Nat → Nat → ℚ :=
  fun i j => if i = i0 then r j else M i j

/-- Overwrite entry `i0` of the vector `W` with `x`. -/
def vecUpdate (W : Nat → ℚ) (i0 : Nat) (x : ℚ) : Nat → ℚ :=
  fun i => if i = i0 then x else W i

/-- numpy `X[v] += np.outer(w, f)` (fancy-index in-place add): the addends are
gathered from the original `X` and scattered back sequentially, so a duplicate
index receives only its last update. -/
def scatterAddX (X : Nat → Nat → ℚ) (idxs : List Nat) (w : List ℚ) (f : Nat → ℚ) :
    Nat → Nat → ℚ :=
  (idxs.zip w).foldl (fun acc p => rowUpdate acc p.1 (fun j => X p.1 j + p.2 * f j)) X

/-- numpy `W[v] += w`, same gather/scatter semantics as `scatterAddX`. -/
def scatterAddW (W : Nat → ℚ) (idxs : List Nat) (w : List ℚ) : Nat → ℚ :=
  (idxs.zip w).foldl (fun acc p => vecUpdate acc p.1 (W p.1 + p.2)) W

/-- The `map_to` dispatch of `mapPointFeaturesToMesh` (lines 46-54). -/
def contribVertices (mesh : Mesh) (map_to : String) (cutoff : ℚ) (p : P3) (o : ℚ) :
    Except String (List Nat × List ℚ) :=
  if map_to = "neighborhood" then .ok (mesh.verticesInBall p (cutoff + o))
  else if map_to = "nearest" then .ok (mesh.nearestVertex p)
  else .error ("ValueError: Unknown value of argument map_to: " ++ map_to)

/-- The accumulation loop of `mapPointFeaturesToMesh` (lines 40-59), walking
points, feature rows and offsets in step. -/
def accumulatePoints (mesh : Mesh) (cutoff : ℚ) (map_to wm : String) (minw maxw : ℚ) :
    List P3 → List (Nat → ℚ) → List ℚ → (Nat → Nat → ℚ) → (Nat → ℚ) →
    Except String ((Nat → Nat → ℚ) × (Nat → ℚ))
  | [], _, _, X, W => .ok (X, W)
  | _ :: _, [], _, X, W => .ok (X, W)
  | _ :: _, _ :: _, [], X, W => .ok (X, W)
  | p :: ps, f :: fs, o :: os, X, W =>
    match contribVertices mesh map_to cutoff p o with
    | .error e => .error e
    | .ok (v, d) =>
      if v.length > 0 then
        match wfn d cutoff o wm minw maxw with
        | .error e => .error e
        | .ok w =>
          accumulatePoints mesh cutoff map_to wm minw maxw ps fs os
            (scatterAddX X v w f) (scatterAddW W v w)
      else accumulatePoints mesh cutoff map_to wm minw maxw ps fs os X W

/-- Line 62-63: `W[W == 0] = 1.0`. -/
def normalizeW (W : Nat → ℚ) : Nat → ℚ := fun v => if W v = 0 then 1 else W v

/-- Embedding of `mapPointFeaturesToMesh` (lines 29-71).  Feature rows are
functions `Nat → ℚ`; the returned matrix is `Nat → Nat → ℚ`. -/
def mapPointFeaturesToMesh (mesh : Mesh) (points : List P3) (features : List (Nat → ℚ))
    (distance_cutoff : ℚ) (offset : Option (List ℚ)) (map_to : String)
    (weight_method : String) (clip_values : Bool) (laplace_smooth : Bool)
    (minw maxw : ℚ) : Except String (Nat → Nat → ℚ) :=
  let offs := offset.getD (List.replicate points.length 0)
  if points.length = features.length ∧ points.length = offs.length then
    let X0 : Nat → Nat → ℚ := fun _ _ => 0
    let X1 := if clip_values then clipOutliers mesh.num_vertices X0 else X0
    match accumulatePoints mesh distance_cutoff map_to weight_method minw maxw
        points features offs X1 (fun _ => 0) with
    | .error e => .error e
    | .ok (X, W) =>
      let Wn := normalizeW W
      let Xn := fun i j => X i j / Wn i
      .ok (if laplace_smooth then laplacianSmoothing mesh Xn else Xn)
  else .error "AssertionError"

/-- Observer: one entry of the returned feature matrix. -/
def mapResultEntry (mesh : Mesh) (points : List P3) (features : List (Nat → ℚ))
    (distance_cutoff : ℚ) (offset : Option (List ℚ)) (map_to : String)
    (weight_method : String) (clip_values : Bool) (laplace_smooth : Bool)
    (minw maxw : ℚ) (i j : Nat) : Except String ℚ :=
  (mapPointFeaturesToMesh mesh points features distance_cutoff offset map_to
    weight_method clip_values laplace_smooth minw maxw).map (fun X => X i j)

/-- Observer: the total accumulated contribution weight of vertex `v` just
before the normalization step. -/
def totalWeightAt (mesh : Mesh) (points : List P3) (features : List (Nat → ℚ))
    (distance_cutoff : ℚ) (offset : Option (List ℚ)) (map_to : String)
    (weight_method : String) (minw maxw : ℚ) (v : Nat) : Except String ℚ :=
  let offs := offset.getD (List.replicate points.length 0)
  if points.length = features.length ∧ points.length = offs.length then
    (accumulatePoints mesh distance_cutoff map_to weight_method minw maxw
      points features offs (fun _ _ => 0) (fun _ => 0)).map (fun r => r.2 v)
  else .error "AssertionError"

/-! ### Concrete mesh for witnesses and counterexamples: a single vertex at
the origin, queried with points on the x axis, for which the Euclidean
distance from `(x, 0, 0)` to the origin is exactly `|x|`. -/

def lineDist (p : P3) : ℚ := |p.1|

def mesh1 : Mesh where
  num_vertices := 1
  verticesInBall := fun p t => if lineDist p ≤ t then ([0], [lineDist p]) else ([], [])
  nearestVertex := fun p => ([0], [lineDist p])
  neighbors := fun _ => []

/-- Two x-axis points used against `mesh1`: one on the vertex (distance 0),
one at distance `3/2`. -/
def pts7 : List P3 := [(0, 0, 0), (3/2, 0, 0)]

/-- Matching feature rows for `pts7`. -/
def fts7 : List (Nat → ℚ) := [fun _ => 1, fun _ => 0]

/-! ## geobind/nn/metrics/choose_binary_threshold.py -/

/-- numpy `np.linspace(a, b, num)` (endpoint included, the default). -/
def linspace (a b : ℚ) (num : Nat) : List ℚ :=
  if num = 0 then []
  else if num = 1 then [a]
  else (List.range num).map (fun k : Nat => a + (b - a) * (k : ℚ) / ((num : ℚ) - 1))

/-- Line 19: `np.linspace(0, 1, n_samples+2)[1:-1]` — the candidate
thresholds, skipping the 0 and 1 endpoints. -/
def sampleThresholds (n_samples : Nat) : List ℚ :=
  ((linspace 0 1 (n_samples + 2)).drop 1).dropLast

/-- Maximum of a list (numpy `max`; `0` on the empty list, which numpy
rejects). -/
def listMaxD : List ℚ → ℚ
  | [] => 0
  | x :: xs => xs.foldl max x

/-- Minimum of a list (numpy `min`; `0` on the empty list). -/
def listMinD : List ℚ → ℚ
  | [] => 0
  | x :: xs => xs.foldl min x

/-- numpy `np.argmax`, modelled by its documented behaviour: the first index
at which the maximum value occurs. -/
def npArgmax (l : List ℚ) : Nat := l.indexOf (listMaxD l)

/-- numpy `np.argmin`: the first index at which the minimum value occurs. -/
def npArgmin (l : List ℚ) : Nat := l.indexOf (listMinD l)

/-- Line 20 and 34: the metric evaluated on one batch at every candidate
threshold; `p >= t` is the elementwise boolean array passed to the metric. -/
def batchRow (metric_fn : List ℚ → List Bool → ℚ) (thresholds : List ℚ)
    (y p : List ℚ) : List ℚ :=
  thresholds.map (fun t => metric_fn y (p.map (fun x => decide (t ≤ x))))

/-- Lines 38-41: aggregation of the per-batch metric matrix across batches,
per threshold (`values.mean(axis=0)` or `values.max(axis=0)`). -/
def aggregateValues (optimize : String) (rows : List (List ℚ)) (numT : Nat) : List ℚ :=
  if optimize = "batch_mean" then
    (List.range numT).map (fun j => (rows.map (fun r => r.getD j 0)).sum / (rows.length : ℚ))
  else if optimize = "batch_max" then
    (List.range numT).map (fun j => listMaxD (rows.map (fun r => r.getD j 0)))
  else []

/-- Embedding of `chooseBinaryThreshold` (choose_binary_threshold.py lines
4-49), on inputs already normalized to list-of-batches form (lines 23-26 wrap
a single array into a singleton list).  An `optimize` value other than the two
recognized ones leaves the metric matrix two-dimensional in the reference and
produces a heterogeneously-typed result; that fall-through is out of the
modelled behaviour and returns an error here.  An unrecognized
`metric_criteria` leaves `idx` unassigned in the reference (`NameError`). -/
def chooseBinaryThreshold (y_gt probs : List (List ℚ))
    (metric_fn : List ℚ → List Bool → ℚ) (metric_criteria : String)
    (n_samples : Nat) (optimize : String) : Except String (ℚ × ℚ) :=
  let thresholds := sampleThresholds n_samples
  if y_gt.length = probs.length then
    let rows := (y_gt.zip probs).map (fun yp => batchRow metric_fn thresholds yp.1 yp.2)
    if optimize = "batch_mean" ∨ optimize = "batch_max" then
      let values := aggregateValues optimize rows thresholds.length
      if metric_criteria = "max" then
        let idx := npArgmax values
        if idx < thresholds.length then .ok (thresholds.getD idx 0, values.getD idx 0)
        else .error "IndexError"
      else if metric_criteria = "min" then
        let idx := npArgmin values
        if idx < thresholds.length then .ok (thresholds.getD idx 0, values.getD idx 0)
        else .error "IndexError"
      else .error "NameError: idx is never assigned"
    else .error "unmodelled optimize value: the reference returns a 2-d result"
  else .error "AssertionError"

/-- Concrete metric used by witnesses: `1` when the first prediction is
positive, else `0`. -/
def firstPredMetric : List ℚ → List Bool → ℚ :=
  fun _ pred => if pred.getD 0 false = true then 1 else 0

/-! ## bin/train_model.py: checkpoint cadence resolution (lines 179-183) -/

/-- Embedding of the `checkpoint_every` resolution in train_model.py lines
180-183: `0` or a value above `epochs` is replaced by `epochs`; otherwise a
negative value or debug mode replaces it by Python `False` (`none` here),
disabling checkpointing. -/
def resolveCheckpointEvery (checkpoint_every epochs : Int) (debug : Bool) : Option Int :=
  if checkpoint_every = 0 ∨ checkpoint_every > epochs then some epochs
  else if checkpoint_every < 0 ∨ debug then none
  else some checkpoint_every

/-- Modelled from the spec: the Trainer's checkpoint cadence
(geobind/nn/trainer.py is not under src/).  The spec says "Checkpointing:
every `checkpoint_every` epochs ... persist a CheckpointRecord"; epochs are
numbered `1..epochs` and a checkpoint is written after epoch `e` exactly when
the resolved cadence is an integer `k` with `e % k = 0`; a `False`/disabled
cadence writes none. -/
def checkpointEpochs (epochs : Nat) (cadence : Option Int) : List Nat :=
  match cadence with
  | none => []
  | some k => (List.range' 1 epochs).filter (fun e => decide ((e : Int) % k = 0))

/-! ## clean_protein.py lines 276-329: transient-file lifecycle of the
PDB2PQR step.  The embedding tracks which of the two files created by the
block (the temporary PDB written before the tool invocation and the PQR
side-product) exist on disk when the block ends. -/

structure FileState where
  tmpPDB : Bool
  pqr : Bool
deriving DecidableEq

/-- State trace of clean_protein.py lines 283-329: write the temp PDB, invoke
PDB2PQR (an external collaborator that may or may not produce the PQR file),
raise `FileNotFoundError` — before any cleanup — when no PQR file exists,
else parse it, remove the temp PDB and remove the PQR unless `keepPQR`. -/
def pdb2pqrStep (toolProducesPQR : Bool) (keepPQR : Bool) :
    Except String Unit × FileState :=
  let st1 : FileState := { tmpPDB := true, pqr := false }
  let st2 : FileState := { st1 with pqr := toolProducesPQR }
  if st2.pqr = false then
    (.error "FileNotFoundError: No PQR file was produced", st2)
  else
    let st3 : FileState := { st2 with tmpPDB := false }
    let st4 : FileState := if keepPQR then st3 else { st3 with pqr := false }
    (.ok (), st4)

/-! ## clean_protein.py lines 170-196: numerical chain-id replacement -/

/-- The fixed pool of replacement chain identifiers (line 172). -/
def availableIdPool : List Char :=
  "ABCDEFGHIJKLMNOPQRSTUVWXYZabcdefghijklmnopqrstuvwxyz".toList

/-- Python `str.isnumeric()` restricted to ASCII digits, which is what PDB
chain identifiers can contain. -/
def pyIsNumeric (s : String) : Bool := s.length > 0 && s.toList.all Char.isDigit

/-- The `while len(available_ids) > 0` loop of lines 185-190, operating on the
reversed pool (`pop()` removes the last element first): returns the last
popped character — an unused one when found, otherwise whatever was popped
last before exhaustion — and the remaining pool; `(none, [])` when the pool
was already empty and no pop happened. -/
def popLoopRev (taken : List String) : List Char → Option Char × List Char
  | [] => (none, [])
  | c :: rest =>
    if String.singleton c ∈ taken then
      match rest with
      | [] => (some c, [])
      | _ :: _ => popLoopRev taken rest
    else (some c, rest)

/-- `available_ids.pop()` repeated by the loop: pops from the END of the
pool. -/
def popFromEnd (taken : List String) (avail : List Char) : Option Char × List Char :=
  let r := popLoopRev taken avail.reverse
  (r.1, r.2.reverse)

/-- The chain traversal of lines 181-196.  `taken` is the set of original
chain ids (built once, lines 175-178, and never updated); `lastNew` models the
Python `new_id` variable, which retains its previous value when the loop body
never executes; the returned list is the chain-id sequence after the pass, and
`NameError` is the exception Python would raise if `chain.id = new_id` ran
with `new_id` never having been assigned. -/
def renameGo (taken : List String) :
    List String → List Char → Option String → Except String (List String)
  | [], _, _ => .ok []
  | cid :: rest, avail, lastNew =>
    if pyIsNumeric cid then
      let pr := popFromEnd taken avail
      let newId := match pr.1 with
        | some c => some (String.singleton c)
        | none => lastNew
      match newId with
      | none => .error "NameError"
      | some nid =>
        match renameGo taken rest pr.2 (some nid) with
        | .error e => .error e
        | .ok out => .ok (nid :: out)
    else
      match renameGo taken rest avail lastNew with
      | .error e => .error e
      | .ok out => .ok (cid :: out)

/-- Embedding of the `remove_numerical_chain_id` block of `cleanProtein`
(lines 170-196), acting on the list of chain identifiers of the structure. -/
def renameNumericChains (chains : List String) : Except String (List String) :=
  renameGo chains chains availableIdPool none

/-- The chain ids of a structure occupying every letter of the pool, followed
by one numeric chain id. -/
def chains53 : List String := availableIdPool.map String.singleton ++ ["0"]

/-! ## clean_protein.py: structure data model, ResidueMutator and residue
triage.

A Biopython residue is embedded as its name, its Biopython id triple
`(hetfield, sequence number, insertion code)` and its atom list; the chemical
component catalog and the tripeptide candidate catalog are the read-only
reference data the mutator is constructed from and are carried as function
parameters; `Bio.SVDSuperimposer` is an external collaborator carried as a
pair of functions returning the fitted RMSD and the rotation/translation. -/

structure Atom where
  name : String
  element : String
  coord : P3
deriving DecidableEq

structure Residue where
  hetfield : String
  seqnum : Int
  icode : String
  resname : String
  atoms : List Atom
deriving DecidableEq

/-- Biopython residue id `(hetfield, resseq, icode)`; unique within a chain. -/
abbrev RId := String × Int × String

def Residue.rid (r : Residue) : RId := (r.hetfield, r.seqnum, r.icode)

/-- Python `atom_name in residue`. -/
def Residue.hasAtom (r : Residue) (n : String) : Bool := r.atoms.any (fun a => a.name = n)

/-- Python `residue[atom_name]` as an option. -/
def Residue.findAtom (r : Residue) (n : String) : Option Atom :=
  r.atoms.find? (fun a => a.name = n)

/-- `residue[atom_name].get_coord()`; `(0,0,0)` when absent (only ever used
behind a `hasAtom` test). -/
def Residue.coordOf (r : Residue) (n : String) : P3 :=
  match r.findAtom n with
  | some a => a.coord
  | none => (0, 0, 0)

/-- `residue[atom_name].set_coord(c)`. -/
def Residue.setCoord (r : Residue) (n : String) (c : P3) : Residue :=
  { r with atoms := r.atoms.map (fun a => if a.name = n then { a with coord := c } else a) }

/-- Biopython `residue.add(atom)` appends a child. -/
def Residue.addAtom (r : Residue) (a : Atom) : Residue :=
  { r with atoms := r.atoms ++ [a] }

/-- Embedding of `heavyAtomCount` (clean_protein.py lines 141-146). -/
def heavyAtomCount (r : Residue) : Nat :=
  (r.atoms.filter (fun a => a.element ≠ "H")).length

/-- Modelled from the spec: `stripHydrogens`
(geobind/structure/strip_hydrogens.py, not under src/).  The glossary defines
a heavy atom as any atom that is not hydrogen and 4.2 says hydrogens are
stripped from the fitted candidate; modelled as removing every hydrogen
atom. -/
def stripHydrogens (r : Residue) : Residue :=
  { r with atoms := r.atoms.filter (fun a => a.element ≠ "H") }

/-- One entry of the chemical-component catalog: the expected heavy-atom
count, the `_chem_comp.mon_nstd_parent_comp_id` field when the record has
one, and the side-chain/main-chain atom name sets. -/
structure ChemComponent where
  heavy_atom_count : Int
  mon_nstd_parent : Option String
  side_chain_atoms : List String
  main_chain_atoms : List String

/-- The `ResidueMutator` state after construction: the component catalog
(`self.components`), the standard-residue name set and the candidate
conformers per standard residue name (`self.candidates`; built from the
tripeptide files, one nonempty list per parsed structure). -/
structure Mutator where
  components : String → Option ChemComponent
  standard_residues : List String
  candidates : String → Option (List Residue)

/-- `ResidueMutator.standard` (lines 123-124). -/
def Mutator.standardP (M : Mutator) (resname : String) : Bool :=
  M.standard_residues.contains resname

/-- `ResidueMutator.modified` (lines 126-139): non-standard, has a recorded
parent field, and that parent is standard.  The membership tests are guarded,
so this never raises. -/
def Mutator.modifiedP (M : Mutator) (resname : String) : Bool :=
  if M.standard_residues.contains resname then false
  else
    match M.components resname with
    | some comp =>
      match comp.mon_nstd_parent with
      | some p => !M.standard_residues.contains resname && M.standard_residues.contains p
      | none => false
    | none => false

/-- `Bio.SVDSuperimposer` as an external collaborator: `rms fixed moving` is
`get_rms()` after fitting `moving` onto `fixed`, and `rotran fixed moving` is
`get_rotran()` — a rotation matrix (rows) and translation. -/
structure Superimposer where
  rms : List P3 → List P3 → ℚ
  rotran : List P3 → List P3 → Mat3 × P3

/-- Biopython `Atom.transform(rot, tran)`: row vector times matrix plus
translation. -/
def applyRotran (rot : Mat3) (tran : P3) (c : P3) : P3 :=
  (c.1 * rot.1.1 + c.2.1 * rot.2.1.1 + c.2.2 * rot.2.2.1 + tran.1,
   c.1 * rot.1.2.1 + c.2.1 * rot.2.1.2.1 + c.2.2 * rot.2.2.2.1 + tran.2.1,
   c.1 * rot.1.2.2 + c.2.1 * rot.2.1.2.2 + c.2.2 * rot.2.2.2.2 + tran.2.2)

/-- `candidate.transform(rotm, tran)` applied to every atom. -/
def transformResidue (r : Residue) (rot : Mat3) (tran : P3) : Residue :=
  { r with atoms := r.atoms.map (fun a => { a with coord := applyRotran rot tran a.coord }) }

/-- Lines 56-65 of `mutate`: resolve the standard parent name.  `ok none` is
the Python `return False` for a non-standard parent; a missing component
record or missing parent field raises `KeyError` (line 62 indexes both
unconditionally). -/
def resolveParent (M : Mutator) (resn : String) : Except String (Option String) :=
  if M.standardP resn then .ok (some resn)
  else
    match M.components resn with
    | none => .error "KeyError"
    | some comp =>
      match comp.mon_nstd_parent with
      | none => .error "KeyError"
      | some parn => if M.standardP parn then .ok (some parn) else .ok none

/-- Lines 71-73: `sc_fixed.intersection(sc_movin)`, realized in the order of
the fixed set. -/
def intersectedAtomNames (compR compP : ChemComponent) : List String :=
  compR.side_chain_atoms.filter (fun a => compP.side_chain_atoms.contains a)

/-- Lines 76-79: the intersected atoms actually present in the residue. -/
def presentAtomList (names : List String) (residue : Residue) : List String :=
  names.filter (fun a => residue.hasAtom a)

/-- The candidate loop of lines 90-104: track the minimum RMSD (initialized
99999), the best candidate and its rotation/translation; a candidate missing
one of the fit atoms raises `KeyError` (line 97 indexes it directly). -/
def bestCandidate (imp : Superimposer) (fixed : List P3) (atom_list : List String) :
    List Residue → ℚ → Option (Residue × Mat3 × P3) →
    Except String (Option (Residue × Mat3 × P3))
  | [], _, best => .ok best
  | c :: cs, minRms, best =>
    if atom_list.all (fun a => c.hasAtom a) then
      let moved := atom_list.map (fun a => c.coordOf a)
      let r := imp.rms fixed moved
      if r < minRms then
        bestCandidate imp fixed atom_list cs r (some (c, imp.rotran fixed moved))
      else bestCandidate imp fixed atom_list cs minRms best
    else .error "KeyError"

/-- Lines 111-119: overwrite the candidate's main-chain atom coordinates with
the observed residue's wherever the residue defines that atom, adding the
atom to the candidate first when it is missing. -/
def replaceBackboneAtoms (backbone : List String) (residue cand : Residue) : Residue :=
  backbone.foldl
    (fun cd a =>
      if residue.hasAtom a then
        match residue.findAtom a with
        | some atm =>
          let cd2 := if cd.hasAtom a then cd else cd.addAtom atm
          cd2.setCoord a atm.coord
        | none => cd
      else cd)
    cand

/-- Embedding of `ResidueMutator.mutate` (clean_protein.py lines 55-121).
`ok none` is the Python `return False`; `ok (some r)` is the returned
replacement residue; `error` carries the exception Python would raise
(`KeyError` on missing catalog records or candidate atoms, `AttributeError`
when the candidate loop never sets `min_candidate`). -/
def mutate (M : Mutator) (imp : Superimposer) (residue : Residue)
    (replace_backbone : Bool) : Except String (Option Residue) :=
  let resn := residue.resname
  match resolveParent M resn with
  | .error e => .error e
  | .ok none => .ok none
  | .ok (some parn) =>
    match M.candidates parn with
    | none => .ok none
    | some cands =>
      match M.components resn, M.components parn with
      | some compR, some compP =>
        let atom_list := presentAtomList (intersectedAtomNames compR compP) residue
        if atom_list.isEmpty then .ok none
        else
          let fixed := atom_list.map (fun a => residue.coordOf a)
          match bestCandidate imp fixed atom_list cands 99999 none with
          | .error e => .error e
          | .ok none => .error "AttributeError"
          | .ok (some (c, rot, tran)) =>
            let cand := stripHydrogens (transformResidue c rot tran)
            .ok (some (if replace_backbone then
                replaceBackboneAtoms compR.main_chain_atoms residue cand
              else cand))
      | _, _ => .error "KeyError"

/-- Python `str.strip()` with no arguments: drop whitespace from both ends.
(`String.trim` is definitionally opaque in this toolchain; this structural
equivalent keeps concrete evaluation possible.) -/
def pyStrip (s : String) : String :=
  String.mk (((s.toList.dropWhile Char.isWhitespace).reverse.dropWhile
    Char.isWhitespace).reverse)

/-! ### Residue triage (cleanProtein, method "geobind", lines 205-245) -/

inductive Decision where
  | keep
  | replace
  | removeSilent
  | removeLogged (reason : String)
deriving DecidableEq

/-- Embedding of the per-residue decision of lines 210-227.  `G` is the
global `data.chem_components` catalog (line 212 indexes it unconditionally:
`KeyError` for names absent from it; a recorded heavy-atom count of 1 makes
the completeness denominator zero: `ZeroDivisionError`).  The completeness
test compares the exact ratio with 3/5. -/
def triageResidue (G : String → Option ChemComponent) (M : Mutator)
    (solventMatch : String → Bool) (residue : Residue) : Except String Decision :=
  let resn := pyStrip residue.resname
  match G resn with
  | none => .error "KeyError"
  | some comp =>
    if comp.heavy_atom_count - 1 = 0 then .error "ZeroDivisionError"
    else if ((heavyAtomCount residue : ℚ) / ((comp.heavy_atom_count : ℚ) - 1)) < 3/5 then
      .ok .replace
    else if M.standardP resn then
      if residue.hetfield = " " then .ok .keep
      else .ok (.removeLogged "removed HETATM standard residue: %s")
    else if resn = "HOH" ∨ resn = "WAT" then .ok .removeSilent
    else if solventMatch resn then .ok .keep
    else if M.modifiedP resn then .ok .replace
    else .ok (.removeLogged "removed unrecognized residue: %s")

/-- The first pass over a chain (lines 207-227), staging the `replace` and
`remove` id lists in residue order. -/
def collectTriage (G : String → Option ChemComponent) (M : Mutator)
    (solventMatch : String → Bool) :
    List Residue → Except String (List RId × List (RId × Option String))
  | [] => .ok ([], [])
  | r :: rest =>
    match triageResidue G M solventMatch r with
    | .error e => .error e
    | .ok d =>
      match collectTriage G M solventMatch rest with
      | .error e => .error e
      | .ok (rep, rem) =>
        match d with
        | .keep => .ok (rep, rem)
        | .replace => .ok (r.rid :: rep, rem)
        | .removeSilent => .ok (rep, (r.rid, none) :: rem)
        | .removeLogged msg => .ok (rep, (r.rid, some msg) :: rem)

/-- The removal pass (lines 229-232): for each staged id, log the reason —
when one was recorded and not `quiet` — with the resname looked up from the
chain (`chain[rid].get_resname()`), then `detach_child(rid)`; looking up or
detaching a missing id raises `KeyError`.  A log entry is the pair of the
format template and its arguments. -/
def removePhase (quiet : Bool) :
    List (RId × Option String) → List Residue →
    Except String (List Residue × List (String × List String))
  | [], chain => .ok (chain, [])
  | (rid, reason) :: rest, chain =>
    match chain.find? (fun r => decide (r.rid = rid)) with
    | none => .error "KeyError"
    | some res =>
      let logs1 : List (String × List String) :=
        match reason with
        | some msg => if quiet then [] else [(msg, [res.resname])]
        | none => []
      let chain2 := chain.eraseP (fun r => decide (r.rid = rid))
      match removePhase quiet rest chain2 with
      | .error e => .error e
      | .ok (chainF, logsR) => .ok (chainF, logs1 ++ logsR)

/-- `replacement.id = rid; chain.child_list[idx] = replacement` — replace the
first child carrying `rid` in place. -/
def replaceFirstById : List Residue → RId → Residue → List Residue
  | [], _, _ => []
  | r :: rest, rid, rep =>
    if r.rid = rid then rep :: rest else r :: replaceFirstById rest rid rep

def setResidueId (r : Residue) (rid : RId) : Residue :=
  { r with hetfield := rid.1, seqnum := rid.2.1, icode := rid.2.2 }

/-- The replacement pass (lines 234-245): mutate each staged residue; on
success log and splice the replacement in with the original id, on a `False`
result log and detach the residue. -/
def replacePhase (M : Mutator) (imp : Superimposer) (quiet : Bool) :
    List RId → List Residue →
    Except String (List Residue × List (String × List String))
  | [], chain => .ok (chain, [])
  | rid :: rest, chain =>
    match chain.find? (fun r => decide (r.rid = rid)) with
    | none => .error "KeyError"
    | some res =>
      match mutate M imp res true with
      | .error e => .error e
      | .ok (some replacement) =>
        let logs1 : List (String × List String) :=
          if quiet then []
          else [("replacing residue %s with %s", [res.resname, replacement.resname])]
        let chain2 := replaceFirstById chain rid (setResidueId replacement rid)
        match replacePhase M imp quiet rest chain2 with
        | .error e => .error e
        | .ok (chainF, logsR) => .ok (chainF, logs1 ++ logsR)
      | .ok none =>
        let logs1 : List (String × List String) :=
          if quiet then []
          else [("could not perform replacement on %s, removing", [res.resname])]
        let chain2 := chain.eraseP (fun r => decide (r.rid = rid))
        match replacePhase M imp quiet rest chain2 with
        | .error e => .error e
        | .ok (chainF, logsR) => .ok (chainF, logs1 ++ logsR)

/-- Embedding of the per-chain body of `cleanProtein` with
`method = "geobind"` (lines 205-245): stage the decisions, apply the
removals, then apply the replacements; the returned pair is the final child
list and the emitted log entries in order. -/
def processChain (G : String → Option ChemComponent) (M : Mutator)
    (imp : Superimposer) (solventMatch : String → Bool) (quiet : Bool)
    (chain : List Residue) :
    Except String (List Residue × List (String × List String)) :=
  match collectTriage G M solventMatch chain with
  | .error e => .error e
  | .ok (rep, rem) =>
    match removePhase quiet rem chain with
    | .error e => .error e
    | .ok (chain2, logsRem) =>
      match replacePhase M imp quiet rep chain2 with
      | .error e => .error e
      | .ok (chain3, logsRep) => .ok (chain3, logsRem ++ logsRep)

/-! ### Concrete reference data for witnesses and counterexamples -/

/-- A minimal alanine component record. -/
def compALA : ChemComponent :=
  { heavy_atom_count := 6, mon_nstd_parent := none,
    side_chain_atoms := ["CB"], main_chain_atoms := ["N", "CA", "C", "O"] }

/-- A water component record whose expected heavy count makes the observed
single oxygen complete (ratio `1/(2-1) = 1 ≥ 0.6`). -/
def compHOH : ChemComponent :=
  { heavy_atom_count := 2, mon_nstd_parent := none,
    side_chain_atoms := [], main_chain_atoms := [] }

/-- Catalog holding `ALA` and `HOH`. -/
def catalogC : String → Option ChemComponent :=
  fun n => if n = "ALA" then some compALA else if n = "HOH" then some compHOH else none

/-- A candidate alanine conformer (with one hydrogen, to be stripped). -/
def cand9 : Residue :=
  { hetfield := " ", seqnum := 2, icode := " ", resname := "ALA",
    atoms := [{ name := "CB", element := "C", coord := (1, 1, 1) },
              { name := "CA", element := "C", coord := (0, 1, 0) },
              { name := "HB1", element := "H", coord := (2, 2, 2) }] }

/-- Mutator over `catalogC` with `ALA` standard and one `ALA` conformer. -/
def M9 : Mutator :=
  { components := catalogC,
    standard_residues := ["ALA"],
    candidates := fun n => if n = "ALA" then some [cand9] else none }

/-- A trivial superimposer: perfect fit, identity transform. -/
def imp9 : Superimposer :=
  { rms := fun _ _ => 0,
    rotran := fun _ _ => (((1, 0, 0), (0, 1, 0), (0, 0, 1)), (0, 0, 0)) }

/-- An observed alanine with its side-chain carbon present. -/
def res9 : Residue :=
  { hetfield := " ", seqnum := 1, icode := " ", resname := "ALA",
    atoms := [{ name := "CB", element := "C", coord := (0, 0, 0) },
              { name := "N", element := "N", coord := (1, 0, 0) },
              { name := "CA", element := "C", coord := (0, 1, 0) },
              { name := "C", element := "C", coord := (0, 0, 1) },
              { name := "O", element := "O", coord := (1, 1, 0) }] }

/-- An observed water residue: one oxygen, HETATM record `W`. -/
def resHOH : Residue :=
  { hetfield := "W", seqnum := 101, icode := " ", resname := "HOH",
    atoms := [{ name := "O", element := "O", coord := (0, 0, 0) }] }

/-- A residue whose name is absent from the chemical-component catalog. -/
def resXYZ : Residue :=
  { hetfield := "H_XYZ", seqnum := 5, icode := " ", resname := "XYZ",
    atoms := [{ name := "C1", element := "C", coord := (0, 0, 0) }] }

/-- A second water residue with a distinct id. -/
def resHOH2 : Residue :=
  { hetfield := "W", seqnum := 102, icode := " ", resname := "HOH",
    atoms := [{ name := "O", element := "O", coord := (3, 0, 0) }] }

/-- A catalog record for an unrecognized-but-catalogued component. -/
def compUNK : ChemComponent :=
  { heavy_atom_count := 2, mon_nstd_parent := none,
    side_chain_atoms := [], main_chain_atoms := [] }

/-- An observed residue of that unrecognized component. -/
def resUNK : Residue :=
  { hetfield := "H_UNK", seqnum := 7, icode := " ", resname := "UNK",
    atoms := [{ name := "C1", element := "C", coord := (0, 0, 0) }] }

/-- Catalog holding only `UNK`. -/
def GU : String → Option ChemComponent :=
  fun n => if n = "UNK" then some compUNK else none

/-! ## Theorems about the weight function (claim C10) -/

/-- C10: `wfn` checks `minw < maxw` before dispatching on `weight_method`, so
every method — `binary` included, although its weights ignore `minw`/`maxw` —
raises the `ValueError` when `minw ≥ maxw`, and the all-ones binary weights
are only produced under `minw < maxw`. -/
theorem wfn_minw_maxw_guard (dist : List ℚ) (cutoff offset minw maxw : ℚ)
    (weight_method : String) :
    (minw ≥ maxw →
      wfn dist cutoff offset weight_method minw maxw =
        .error "ValueError: minw must be < maxw!") ∧
    (weight_method = "binary" → minw < maxw →
      wfn dist cutoff offset weight_method minw maxw =
        .ok (List.replicate dist.length 1)) := by
  constructor
  · intro h
    simp only [wfn, ge_iff_le, if_pos h]
  · intro hm hlt
    subst hm
    have hnot : ¬ (maxw ≤ minw) := not_le.mpr hlt
    simp only [wfn, ge_iff_le, if_neg hnot]
    rw [if_neg (by decide), if_neg (by decide)]
    simp

/-- Witness for `wfn_minw_maxw_guard` at concrete inputs. -/
theorem wfn_minw_maxw_guard_witness :
    wfn [1, 2] 3 0 "binary" 1 (1/2) = .error "ValueError: minw must be < maxw!" ∧
    wfn [1, 2] 3 0 "binary" (1/2) 1 = .ok [1, 1] := by
  refine ⟨(wfn_minw_maxw_guard [1, 2] 3 0 1 (1/2) "binary").1 (by norm_num), ?_⟩
  have h := (wfn_minw_maxw_guard [1, 2] 3 0 (1/2) 1 "binary").2 rfl (by norm_num)
  simpa using h

/-! ## Claim C6: `clip_values` has no effect -/

/-- Clipping the all-zero matrix leaves it unchanged: every column is
constantly zero, so the fence is `[0, 0]`. -/
theorem clipOutliers_zero (n : Nat) : clipOutliers n (fun _ _ => 0) = fun _ _ => 0 := by
  funext i j
  simp [clipOutliers, colValues, rmean, npClip]

/-- C6: with every other argument held fixed, `mapPointFeaturesToMesh` returns
the same feature matrix for `clip_values = true` and `clip_values = false`:
the outlier clipping is applied to the zero-initialized accumulator before any
accumulation and is a no-op. -/
theorem mapPointFeaturesToMesh_clip_noop (mesh : Mesh) (points : List P3)
    (features : List (Nat → ℚ)) (distance_cutoff : ℚ) (offset : Option (List ℚ))
    (map_to weight_method : String) (laplace_smooth : Bool) (minw maxw : ℚ) :
    mapPointFeaturesToMesh mesh points features distance_cutoff offset map_to
      weight_method true laplace_smooth minw maxw =
    mapPointFeaturesToMesh mesh points features distance_cutoff offset map_to
      weight_method false laplace_smooth minw maxw := by
  simp only [mapPointFeaturesToMesh, clipOutliers_zero, if_true, if_false,
    Bool.false_eq_true, ite_true, ite_false]

/-! ## Claim C7: vertices with zero total contribution weight -/

/-- Row `u` of the matrix is untouched by a fancy-indexed add whose index list
avoids `u`. -/
theorem scatterAddX_notMem (X : Nat → Nat → ℚ) (v : List Nat) (w : List ℚ)
    (f : Nat → ℚ) (u : Nat) (hu : u ∉ v) (j : Nat) :
    scatterAddX X v w f u j = X u j := by
  unfold scatterAddX
  have key : ∀ (l : List (Nat × ℚ)) (acc : Nat → Nat → ℚ), (∀ p ∈ l, p.1 ≠ u) →
      acc u j = X u j →
      (l.foldl (fun acc p => rowUpdate acc p.1 (fun j => X p.1 j + p.2 * f j)) acc) u j
        = X u j := by
    intro l
    induction l with
    | nil => intro acc _ h; simpa using h
    | cons p ps ih =>
      intro acc hl hacc
      simp only [List.foldl_cons]
      refine ih _ (fun q hq => hl q (List.mem_cons_of_mem _ hq)) ?_
      have hp : p.1 ≠ u := hl p (List.mem_cons_self _ _)
      have hne : ¬ (u = p.1) := fun h => hp h.symm
      simp only [rowUpdate, if_neg hne]
      exact hacc
  refine key _ X ?_ rfl
  intro p hp
  intro hcontra
  exact hu (hcontra ▸ (List.of_mem_zip hp).1)

/-- Entry `u` of the weight vector is untouched by a fancy-indexed add whose
index list avoids `u`. -/
theorem scatterAddW_notMem (W : Nat → ℚ) (v : List Nat) (w : List ℚ) (u : Nat)
    (hu : u ∉ v) : scatterAddW W v w u = W u := by
  unfold scatterAddW
  have key : ∀ (l : List (Nat × ℚ)) (acc : Nat → ℚ), (∀ p ∈ l, p.1 ≠ u) →
      acc u = W u →
      (l.foldl (fun acc p => vecUpdate acc p.1 (W p.1 + p.2)) acc) u = W u := by
    intro l
    induction l with
    | nil => intro acc _ h; simpa using h
    | cons p ps ih =>
      intro acc hl hacc
      simp only [List.foldl_cons]
      refine ih _ (fun q hq => hl q (List.mem_cons_of_mem _ hq)) ?_
      have hp : p.1 ≠ u := hl p (List.mem_cons_self _ _)
      have hne : ¬ (u = p.1) := fun h => hp h.symm
      simp only [vecUpdate, if_neg hne]
      exact hacc
  refine key _ W ?_ rfl
  intro p hp
  intro hcontra
  exact hu (hcontra ▸ (List.of_mem_zip hp).1)

/-- A vertex outside every query result keeps its initial accumulator row and
weight through the accumulation loop. -/
theorem accumulatePoints_untouched (mesh : Mesh) (cutoff : ℚ) (map_to wm : String)
    (minw maxw : ℚ) (u : Nat) :
    ∀ (ps : List P3) (fs : List (Nat → ℚ)) (os : List ℚ) (X : Nat → Nat → ℚ)
      (W : Nat → ℚ) (Xf : Nat → Nat → ℚ) (Wf : Nat → ℚ),
      (∀ p ∈ ps, ∀ o ∈ os, ∀ vd, contribVertices mesh map_to cutoff p o = .ok vd →
        u ∉ vd.1) →
      accumulatePoints mesh cutoff map_to wm minw maxw ps fs os X W = .ok (Xf, Wf) →
      (∀ j, Xf u j = X u j) ∧ Wf u = W u := by
  intro ps
  induction ps with
  | nil =>
    intro fs os X W Xf Wf _ hok
    simp only [accumulatePoints] at hok
    obtain ⟨h1, h2⟩ := Prod.mk.injEq .. ▸ (Except.ok.injEq _ _ ▸ hok)
    subst h1; subst h2; exact ⟨fun _ => rfl, rfl⟩
  | cons p ps ih =>
    intro fs os X W Xf Wf hmem hok
    cases fs with
    | nil =>
      simp only [accumulatePoints] at hok
      obtain ⟨h1, h2⟩ := Prod.mk.injEq .. ▸ (Except.ok.injEq _ _ ▸ hok)
      subst h1; subst h2; exact ⟨fun _ => rfl, rfl⟩
    | cons f fs =>
      cases os with
      | nil =>
        simp only [accumulatePoints] at hok
        obtain ⟨h1, h2⟩ := Prod.mk.injEq .. ▸ (Except.ok.injEq _ _ ▸ hok)
        subst h1; subst h2; exact ⟨fun _ => rfl, rfl⟩
      | cons o os =>
        have hmem' : ∀ q ∈ ps, ∀ o' ∈ os, ∀ vd,
            contribVertices mesh map_to cutoff q o' = .ok vd → u ∉ vd.1 :=
          fun q hq o' ho' vd h =>
            hmem q (List.mem_cons_of_mem _ hq) o' (List.mem_cons_of_mem _ ho') vd h
        simp only [accumulatePoints] at hok
        split at hok
        · simp at hok
        next v d hcv =>
        have husub : u ∉ v :=
          hmem p (List.mem_cons_self _ _) o (List.mem_cons_self _ _) (v, d) hcv
        split at hok
        · split at hok
          · simp at hok
          next w hw =>
          obtain ⟨hX, hW⟩ := ih fs os _ _ _ _ hmem' hok
          constructor
          · intro j
            rw [hX j, scatterAddX_notMem _ _ _ _ _ husub]
          · rw [hW, scatterAddW_notMem _ _ _ _ husub]
        · exact ih fs os _ _ _ _ hmem' hok

/-- C7 (amended): a vertex that appears in no query result ends with a feature
row of exactly zero (before any Laplacian smoothing), and the normalization
divisor is never zero for any vertex — zero accumulated weights are replaced
by `1` before the elementwise division. -/
theorem mapPointFeaturesToMesh_untouched_zero (mesh : Mesh) (points : List P3)
    (features : List (Nat → ℚ)) (distance_cutoff : ℚ) (offset : Option (List ℚ))
    (map_to weight_method : String) (clip_values : Bool) (minw maxw : ℚ) (u : Nat)
    (hu : ∀ p ∈ points, ∀ o ∈ offset.getD (List.replicate points.length 0), ∀ vd,
        contribVertices mesh map_to distance_cutoff p o = .ok vd → u ∉ vd.1) :
    (∀ X', mapPointFeaturesToMesh mesh points features distance_cutoff offset map_to
        weight_method clip_values false minw maxw = .ok X' → ∀ j, X' u j = 0) ∧
    (∀ W v, normalizeW W v ≠ 0) := by
  constructor
  · intro X' hok j
    simp only [mapPointFeaturesToMesh] at hok
    by_cases hassert : points.length = features.length ∧
        points.length = (offset.getD (List.replicate points.length 0)).length
    · rw [if_pos hassert] at hok
      set X1 := if clip_values then
          clipOutliers mesh.num_vertices (fun _ _ => (0 : ℚ)) else fun _ _ => (0 : ℚ)
        with hX1
      have hX1z : ∀ i j, X1 i j = 0 := by
        intro i j
        rw [hX1]
        cases clip_values <;> simp [clipOutliers_zero]
      cases hacc : accumulatePoints mesh distance_cutoff map_to weight_method minw maxw
          points features (offset.getD (List.replicate points.length 0)) X1
          (fun _ => 0) with
      | error e => rw [hacc] at hok; exact absurd hok (by simp)
      | ok r =>
        rw [hacc] at hok
        obtain ⟨X, W⟩ := r
        obtain ⟨hXr, _⟩ :=
          accumulatePoints_untouched mesh distance_cutoff map_to weight_method minw maxw
            u points features _ X1 (fun _ => 0) X W hu hacc
        simp only [if_neg (by simp : ¬ (false = true))] at hok
        have hval := (Except.ok.injEq _ _ ▸ hok)
        rw [← hval]
        show X u j / normalizeW W u = 0
        rw [hXr j, hX1z u j, zero_div]
    · rw [if_neg hassert] at hok
      exact absurd hok (by simp)
  · intro W v
    unfold normalizeW
    split
    · exact one_ne_zero
    · assumption

/-- C7 counterexample: with `minw = -1` (allowed: `wfn` only requires
`minw < maxw`) the two points of `pts7` contribute weights `1` and `-1` to the
single vertex of `mesh1`, so its total contribution weight is zero, yet its
normalized feature value is `1`, not `0`: a zero-total-weight vertex need not
retain a zero feature row. -/
theorem mapPointFeaturesToMesh_zero_weight_nonzero_row :
    totalWeightAt mesh1 pts7 fts7 2 none "neighborhood" "inverse_distance"
      (-1) 1 0 = .ok 0 ∧
    mapResultEntry mesh1 pts7 fts7 2 none "neighborhood" "inverse_distance"
      false false (-1) 1 0 0 = .ok 1 := by
  have habs : |(3/2 : ℚ)| = 3/2 := abs_of_nonneg (by norm_num)
  constructor
  · norm_num [totalWeightAt, accumulatePoints, contribVertices, mesh1, lineDist,
      wfn, npClip, scatterAddW, scatterAddX, vecUpdate, rowUpdate, pts7, fts7,
      habs, max_def, min_def, Except.map]
  · norm_num [mapResultEntry, mapPointFeaturesToMesh, accumulatePoints,
      contribVertices, mesh1, lineDist, wfn, npClip, scatterAddW, scatterAddX,
      vecUpdate, rowUpdate, normalizeW, pts7, fts7, habs, max_def, min_def]
    rfl

/-- Witness for `mapPointFeaturesToMesh_untouched_zero`: a point at distance 5
from the single vertex of `mesh1` with cutoff 2 contributes nothing, and the
vertex keeps a zero feature value. -/
theorem mapPointFeaturesToMesh_untouched_zero_witness :
    mapResultEntry mesh1 [((5 : ℚ), 0, 0)] [fun _ => 1] 2 none "neighborhood"
      "inverse_distance" false false (1/2) 1 0 0 = .ok 0 := by
  have habs : |(5 : ℚ)| = 5 := abs_of_nonneg (by norm_num)
  have hu : ∀ p ∈ ([((5 : ℚ), 0, 0)] : List P3),
      ∀ o ∈ (none : Option (List ℚ)).getD (List.replicate 1 0), ∀ vd,
      contribVertices mesh1 "neighborhood" 2 p o = .ok vd → 0 ∉ vd.1 := by
    intro p hp o ho vd h
    simp only [List.mem_singleton] at hp
    simp only [Option.getD_none, List.mem_replicate] at ho
    subst hp
    rw [ho.2] at h
    have hc : contribVertices mesh1 "neighborhood" 2 ((5 : ℚ), 0, 0) 0 = .ok ([], []) := by
      norm_num [contribVertices, mesh1, lineDist, habs]
    rw [hc] at h
    cases h
    simp
  have h := (mapPointFeaturesToMesh_untouched_zero mesh1 [((5 : ℚ), 0, 0)]
    [fun _ => 1] 2 none "neighborhood" "inverse_distance" false (1/2) 1 0 hu).1
  cases hE : mapPointFeaturesToMesh mesh1 [((5 : ℚ), 0, 0)] [fun _ => 1] 2 none
      "neighborhood" "inverse_distance" false false (1/2) 1 with
  | error e =>
    rw [mapPointFeaturesToMesh] at hE
    norm_num [accumulatePoints, contribVertices, mesh1, lineDist, habs] at hE
    exact absurd hE (by simp)
  | ok X' =>
    rw [mapResultEntry, hE]
    simp only [Except.map]
    rw [h X' hE 0]

/-! ## Claim C8: chooseBinaryThreshold -/

/-- The candidate thresholds are `(k+1)/(n+1)` for `k < n`. -/
theorem sampleThresholds_eq (n : Nat) :
    sampleThresholds n =
      (List.range n).map (fun k : Nat => ((k : ℚ) + 1) / ((n : ℚ) + 1)) := by
  unfold sampleThresholds linspace
  rw [if_neg (by omega), if_neg (by omega)]
  rw [List.range_succ_eq_map (n + 1)]
  simp only [List.map_cons, List.map_map]
  rw [List.drop_one, List.tail_cons]
  rw [← List.map_dropLast]
  rw [List.range_succ n, List.dropLast_concat]
  refine List.map_congr_left ?_
  intro k _
  simp only [Function.comp]
  push_cast
  have hden : ((n : ℚ) + 2) - 1 = (n : ℚ) + 1 := by ring
  rw [hden]
  ring

theorem sampleThresholds_length (n : Nat) : (sampleThresholds n).length = n := by
  rw [sampleThresholds_eq]; simp

theorem sampleThresholds_getD (n k : Nat) (hk : k < n) :
    (sampleThresholds n).getD k 0 = ((k : ℚ) + 1) / ((n : ℚ) + 1) := by
  rw [sampleThresholds_eq]
  rw [List.getD_eq_getElem _ _ (by simpa using hk)]
  simp

/-- Every list element is bounded by `listMaxD`. -/
theorem le_listMaxD (l : List ℚ) (y : ℚ) (hy : y ∈ l) : y ≤ listMaxD l := by
  have aux1 : ∀ (xs : List ℚ) (x : ℚ), x ≤ xs.foldl max x := by
    intro xs
    induction xs with
    | nil => intro x; exact le_refl x
    | cons a l ih =>
      intro x
      exact le_trans (le_max_left x a) (ih (max x a))
  have aux2 : ∀ (xs : List ℚ) (x y : ℚ), y ∈ xs → y ≤ xs.foldl max x := by
    intro xs
    induction xs with
    | nil => intro x y hy; exact absurd hy (List.not_mem_nil y)
    | cons a l ih =>
      intro x y hy
      rcases List.mem_cons.mp hy with h | h
      · subst h
        exact le_trans (le_max_right x y) (aux1 l (max x y))
      · exact ih (max x a) y h
  cases l with
  | nil => exact absurd hy (List.not_mem_nil y)
  | cons x xs =>
    rcases List.mem_cons.mp hy with h | h
    · subst h; exact aux1 xs y
    · exact aux2 xs x y h

/-- `listMaxD` of a nonempty list is one of its elements. -/
theorem listMaxD_mem (l : List ℚ) (h : l ≠ []) : listMaxD l ∈ l := by
  have aux : ∀ (xs : List ℚ) (x : ℚ), xs.foldl max x = x ∨ xs.foldl max x ∈ xs := by
    intro xs
    induction xs with
    | nil => intro x; exact Or.inl rfl
    | cons a l ih =>
      intro x
      rcases ih (max x a) with he | hm
      · rw [List.foldl_cons, he]
        rcases max_choice x a with h1 | h1
        · exact Or.inl h1
        · rw [h1]; exact Or.inr (List.mem_cons_self a l)
      · exact Or.inr (List.mem_cons_of_mem a hm)
  cases l with
  | nil => exact absurd rfl h
  | cons x xs =>
    show xs.foldl max x ∈ x :: xs
    rcases aux xs x with he | hm
    · rw [he]; exact List.mem_cons_self x xs
    · exact List.mem_cons_of_mem x hm

/-- Every list element bounds `listMinD` from above. -/
theorem listMinD_le (l : List ℚ) (y : ℚ) (hy : y ∈ l) : listMinD l ≤ y := by
  have aux1 : ∀ (xs : List ℚ) (x : ℚ), xs.foldl min x ≤ x := by
    intro xs
    induction xs with
    | nil => intro x; exact le_refl x
    | cons a l ih =>
      intro x
      exact le_trans (ih (min x a)) (min_le_left x a)
  have aux2 : ∀ (xs : List ℚ) (x y : ℚ), y ∈ xs → xs.foldl min x ≤ y := by
    intro xs
    induction xs with
    | nil => intro x y hy; exact absurd hy (List.not_mem_nil y)
    | cons a l ih =>
      intro x y hy
      rcases List.mem_cons.mp hy with h | h
      · subst h
        exact le_trans (aux1 l (min x y)) (min_le_right x y)
      · exact ih (min x a) y h
  cases l with
  | nil => exact absurd hy (List.not_mem_nil y)
  | cons x xs =>
    rcases List.mem_cons.mp hy with h | h
    · subst h; exact aux1 xs y
    · exact aux2 xs x y h

/-- `listMinD` of a nonempty list is one of its elements. -/
theorem listMinD_mem (l : List ℚ) (h : l ≠ []) : listMinD l ∈ l := by
  have aux : ∀ (xs : List ℚ) (x : ℚ), xs.foldl min x = x ∨ xs.foldl min x ∈ xs := by
    intro xs
    induction xs with
    | nil => intro x; exact Or.inl rfl
    | cons a l ih =>
      intro x
      rcases ih (min x a) with he | hm
      · rw [List.foldl_cons, he]
        rcases min_choice x a with h1 | h1
        · exact Or.inl h1
        · rw [h1]; exact Or.inr (List.mem_cons_self a l)
      · exact Or.inr (List.mem_cons_of_mem a hm)
  cases l with
  | nil => exact absurd rfl h
  | cons x xs =>
    show xs.foldl min x ∈ x :: xs
    rcases aux xs x with he | hm
    · rw [he]; exact List.mem_cons_self x xs
    · exact List.mem_cons_of_mem x hm

/-- Elements strictly before the first occurrence of `a` differ from `a`. -/
theorem getD_ne_of_lt_indexOf (l : List ℚ) (a : ℚ) :
    ∀ j, j < l.indexOf a → l.getD j 0 ≠ a := by
  induction l with
  | nil => intro j hj; simp [List.indexOf_nil] at hj
  | cons x xs ih =>
    intro j hj
    by_cases hx : x = a
    · rw [List.indexOf_cons_eq xs hx] at hj
      exact absurd hj (Nat.not_lt_zero j)
    · rw [List.indexOf_cons_ne xs hx] at hj
      cases j with
      | zero => simpa using hx
      | succ j =>
        rw [List.getD_cons_succ]
        exact ih j (Nat.lt_of_succ_lt_succ hj)

/-- The value at the first occurrence index of a member is that member. -/
theorem getD_indexOf_self (l : List ℚ) (a : ℚ) (ha : a ∈ l) :
    l.getD (l.indexOf a) 0 = a := by
  have hlt : l.indexOf a < l.length := List.indexOf_lt_length.mpr ha
  rw [List.getD_eq_getElem _ _ hlt]
  exact List.getElem_indexOf hlt

/-- `npArgmax` returns the first index of the maximum value. -/
theorem npArgmax_spec (l : List ℚ) (hne : l ≠ []) :
    npArgmax l < l.length ∧
    (∀ j, j < l.length → l.getD j 0 ≤ l.getD (npArgmax l) 0) ∧
    (∀ j, j < npArgmax l → l.getD j 0 < l.getD (npArgmax l) 0) := by
  have hmem : listMaxD l ∈ l := listMaxD_mem l hne
  have hlt : npArgmax l < l.length := List.indexOf_lt_length.mpr hmem
  have hval : l.getD (npArgmax l) 0 = listMaxD l := getD_indexOf_self l (listMaxD l) hmem
  refine ⟨hlt, ?_, ?_⟩
  · intro j hj
    rw [hval]
    refine le_listMaxD l _ ?_
    rw [List.getD_eq_getElem _ _ hj]
    exact List.getElem_mem hj
  · intro j hj
    have hne' : l.getD j 0 ≠ listMaxD l := getD_ne_of_lt_indexOf l (listMaxD l) j hj
    have hle : l.getD j 0 ≤ listMaxD l := by
      refine le_listMaxD l _ ?_
      have hjlen : j < l.length := lt_trans hj hlt
      rw [List.getD_eq_getElem _ _ hjlen]
      exact List.getElem_mem hjlen
    rw [hval]
    exact lt_of_le_of_ne hle hne'

/-- `npArgmin` returns the first index of the minimum value. -/
theorem npArgmin_spec (l : List ℚ) (hne : l ≠ []) :
    npArgmin l < l.length ∧
    (∀ j, j < l.length → l.getD (npArgmin l) 0 ≤ l.getD j 0) ∧
    (∀ j, j < npArgmin l → l.getD (npArgmin l) 0 < l.getD j 0) := by
  have hmem : listMinD l ∈ l := listMinD_mem l hne
  have hlt : npArgmin l < l.length := List.indexOf_lt_length.mpr hmem
  have hval : l.getD (npArgmin l) 0 = listMinD l := getD_indexOf_self l (listMinD l) hmem
  refine ⟨hlt, ?_, ?_⟩
  · intro j hj
    rw [hval]
    refine listMinD_le l _ ?_
    rw [List.getD_eq_getElem _ _ hj]
    exact List.getElem_mem hj
  · intro j hj
    have hne' : l.getD j 0 ≠ listMinD l := getD_ne_of_lt_indexOf l (listMinD l) j hj
    have hle : listMinD l ≤ l.getD j 0 := by
      refine listMinD_le l _ ?_
      have hjlen : j < l.length := lt_trans hj hlt
      rw [List.getD_eq_getElem _ _ hjlen]
      exact List.getElem_mem hjlen
    rw [hval]
    exact lt_of_le_of_ne hle (Ne.symm hne')

/-- The aggregated metric list has one entry per threshold. -/
theorem aggregateValues_length (optimize : String) (rows : List (List ℚ)) (numT : Nat)
    (hopt : optimize = "batch_mean" ∨ optimize = "batch_max") :
    (aggregateValues optimize rows numT).length = numT := by
  rcases hopt with h | h <;> subst h <;> simp [aggregateValues]

/-- C8: `chooseBinaryThreshold` evaluates exactly `n_samples` candidate
thresholds `(k+1)/(n_samples+1)`, evenly spaced and strictly inside `(0, 1)`
(`n_samples = 1` giving the single candidate `1/2`), and returns the candidate
at the first index achieving the extremal aggregated metric value under
`metric_criteria` (`max`: first maximizer; `min`: first minimizer; ascending
threshold order), together with that aggregated value.  The hypothesis
`y_gt ≠ []` keeps the model on numpy's defined behaviour (the mean of an
empty batch list is NaN there). -/
theorem chooseBinaryThreshold_spec (y_gt probs : List (List ℚ))
    (metric_fn : List ℚ → List Bool → ℚ) (metric_criteria : String)
    (n_samples : Nat) (optimize : String)
    (hn : 1 ≤ n_samples) (hlen : y_gt.length = probs.length) (hbatch : y_gt ≠ [])
    (hmc : metric_criteria = "max" ∨ metric_criteria = "min")
    (hopt : optimize = "batch_mean" ∨ optimize = "batch_max") :
    (sampleThresholds n_samples).length = n_samples ∧
    (∀ k, k < n_samples →
      (sampleThresholds n_samples).getD k 0 = ((k : ℚ) + 1) / ((n_samples : ℚ) + 1)) ∧
    (∀ t ∈ sampleThresholds n_samples, 0 < t ∧ t < 1) ∧
    (n_samples = 1 → sampleThresholds n_samples = [1/2]) ∧
    (∃ i, i < n_samples ∧
      chooseBinaryThreshold y_gt probs metric_fn metric_criteria n_samples optimize =
        .ok ((sampleThresholds n_samples).getD i 0,
             (aggregateValues optimize
               ((y_gt.zip probs).map
                 (fun yp => batchRow metric_fn (sampleThresholds n_samples) yp.1 yp.2))
               (sampleThresholds n_samples).length).getD i 0) ∧
      (let A := aggregateValues optimize
          ((y_gt.zip probs).map
            (fun yp => batchRow metric_fn (sampleThresholds n_samples) yp.1 yp.2))
          (sampleThresholds n_samples).length
       (metric_criteria = "max" →
         (∀ j, j < n_samples → A.getD j 0 ≤ A.getD i 0) ∧
         (∀ j, j < i → A.getD j 0 < A.getD i 0)) ∧
       (metric_criteria = "min" →
         (∀ j, j < n_samples → A.getD i 0 ≤ A.getD j 0) ∧
         (∀ j, j < i → A.getD i 0 < A.getD j 0)))) := by
  have hTlen : (sampleThresholds n_samples).length = n_samples :=
    sampleThresholds_length n_samples
  refine ⟨hTlen, fun k hk => sampleThresholds_getD n_samples k hk, ?_, ?_, ?_⟩
  · intro t ht
    rw [sampleThresholds_eq] at ht
    obtain ⟨k, hk, rfl⟩ := List.mem_map.mp ht
    rw [List.mem_range] at hk
    constructor
    · positivity
    · rw [div_lt_one (by positivity)]
      have : (k : ℚ) < (n_samples : ℚ) := by exact_mod_cast hk
      linarith
  · intro h1
    subst h1
    rw [sampleThresholds_eq]
    simp only [List.range_succ, List.range_zero, List.nil_append, List.map_cons,
      List.map_nil]
    norm_num
  · set A := aggregateValues optimize
      ((y_gt.zip probs).map
        (fun yp => batchRow metric_fn (sampleThresholds n_samples) yp.1 yp.2))
      (sampleThresholds n_samples).length with hA
    have hAlen : A.length = n_samples := by
      rw [hA, aggregateValues_length _ _ _ hopt, hTlen]
    have hAne : A ≠ [] := by
      intro hcon
      rw [hcon] at hAlen
      simp at hAlen
      omega
    rcases hmc with hmax | hmin
    · subst hmax
      obtain ⟨hi, hle, hfirst⟩ := npArgmax_spec A hAne
      have hibound : npArgmax A < n_samples := hAlen ▸ hi
      refine ⟨npArgmax A, hibound, ?_, ?_⟩
      · simp only [chooseBinaryThreshold]
        rw [if_pos hlen, if_pos hopt, if_pos trivial]
        rw [← hA]
        rw [if_pos (show npArgmax A < (sampleThresholds n_samples).length by
          rw [hTlen]; exact hibound)]
      · refine ⟨fun _ => ⟨fun j hj => hle j (hAlen ▸ hj), hfirst⟩, fun hcon => ?_⟩
        exact absurd hcon (by decide)
    · subst hmin
      obtain ⟨hi, hle, hfirst⟩ := npArgmin_spec A hAne
      have hibound : npArgmin A < n_samples := hAlen ▸ hi
      refine ⟨npArgmin A, hibound, ?_, ?_⟩
      · simp only [chooseBinaryThreshold]
        rw [if_pos hlen, if_pos hopt, if_neg (by decide), if_pos trivial]
        rw [← hA]
        rw [if_pos (show npArgmin A < (sampleThresholds n_samples).length by
          rw [hTlen]; exact hibound)]
      · refine ⟨fun hcon => absurd hcon (by decide),
          fun _ => ⟨fun j hj => hle j (hAlen ▸ hj), hfirst⟩⟩

/-- Witness for `chooseBinaryThreshold_spec`: a single batch `y=[1]`,
`p=[1]` with one candidate threshold gives `(1/2, 1)`. -/
theorem chooseBinaryThreshold_spec_witness :
    chooseBinaryThreshold [[1]] [[1]] firstPredMetric "max" 1 "batch_mean" =
      .ok (1/2, 1) := by
  obtain ⟨hlen1, hgetD, hbnd, hT, i, hi, hok, hext⟩ :=
    chooseBinaryThreshold_spec [[1]] [[1]] firstPredMetric "max" 1 "batch_mean"
      (le_refl 1) rfl (by simp) (Or.inl rfl) (Or.inl rfl)
  have hi0 : i = 0 := Nat.lt_one_iff.mp hi
  subst hi0
  rw [hok, hT rfl]
  have hd : decide ((1/2 : ℚ) ≤ 1) = true := decide_eq_true (by norm_num)
  norm_num [aggregateValues, batchRow, firstPredMetric, hd, List.range_succ]

/-! ## Claim C5: checkpoint cadence -/

/-- With the cadence resolved to `epochs`, exactly one checkpoint is written,
after the final epoch. -/
theorem checkpointEpochs_self (m : Nat) :
    checkpointEpochs (m + 1) (some ((m + 1 : Nat) : Int)) = [m + 1] := by
  simp only [checkpointEpochs]
  rw [List.range'_concat 1 m]
  rw [show 1 + 1 * m = m + 1 from by omega]
  rw [List.filter_append]
  have h1 : (List.range' 1 m).filter
      (fun e : Nat => decide ((e : Int) % (((m + 1 : Nat)) : Int) = 0)) = [] := by
    refine List.filter_eq_nil_iff.mpr ?_
    intro a ha
    rw [List.mem_range'_1] at ha
    have hmod : ((a : Nat) : Int) % (((m + 1 : Nat)) : Int) = (a : Int) := by
      refine Int.emod_eq_of_lt ?_ ?_ <;> omega
    simp only [decide_eq_true_eq, hmod]
    omega
  rw [h1, List.nil_append]
  have h2 : decide ((((m + 1 : Nat)) : Int) % (((m + 1 : Nat)) : Int) = 0) = true := by
    simp [Int.emod_self]
  simp [List.filter, h2]

/-- C5 (amended): `checkpoint_every = 0` resolves to `epochs` — one checkpoint
after the final epoch — even in debug mode; a negative `checkpoint_every`
disables checkpointing; debug mode disables checkpointing only when
`0 < checkpoint_every ≤ epochs` (the `== 0` branch is tested first, so debug
does not disable the single end-of-training checkpoint). -/
theorem resolveCheckpointEvery_spec (epochs : Nat) (debug : Bool) (hep : 1 ≤ epochs) :
    (resolveCheckpointEvery 0 (epochs : Int) debug = some (epochs : Int) ∧
       checkpointEpochs epochs (some ((epochs : Nat) : Int)) = [epochs]) ∧
    (∀ ce : Int, ce < 0 →
       resolveCheckpointEvery ce (epochs : Int) debug = none) ∧
    (checkpointEpochs epochs none = []) ∧
    (debug = true → ∀ ce : Int, 0 < ce → ce ≤ (epochs : Int) →
       resolveCheckpointEvery ce (epochs : Int) debug = none) := by
  obtain ⟨m, rfl⟩ : ∃ m, epochs = m + 1 := ⟨epochs - 1, by omega⟩
  refine ⟨⟨?_, checkpointEpochs_self m⟩, ?_, rfl, ?_⟩
  · unfold resolveCheckpointEvery
    rw [if_pos (Or.inl rfl)]
  · intro ce hce
    unfold resolveCheckpointEvery
    rw [if_neg (by rintro (h | h) <;> omega), if_pos (Or.inl hce)]
  · intro hdbg ce h1 h2
    unfold resolveCheckpointEvery
    rw [if_neg (by rintro (h | h) <;> omega), if_pos (Or.inr hdbg)]

/-- C5 counterexample: with `checkpoint_every = 0`, `epochs = 3` and debug
mode ON, the resolution still yields the cadence 3 — a checkpoint IS written
(after epoch 3) — because the `== 0` branch is tested before the debug
branch; debug mode does not disable checkpointing for this value. -/
theorem resolveCheckpointEvery_debug_zero_not_disabled :
    resolveCheckpointEvery 0 3 true = some 3 ∧
    checkpointEpochs 3 (some 3) = [3] := by
  constructor
  · decide
  · decide

/-- Witness for `resolveCheckpointEvery_spec`: a negative cadence disables
checkpointing. -/
theorem resolveCheckpointEvery_spec_witness :
    resolveCheckpointEvery (-1) ((2 : Nat) : Int) false = none :=
  (resolveCheckpointEvery_spec 2 false (by norm_num)).2.1 (-1) (by norm_num)

/-! ## Claim C4: transient-file cleanup of the PDB2PQR step -/

/-- C4 counterexample: when the external tool produces no PQR file, the
`FileNotFoundError` is raised before the cleanup line `os.remove(tmpFile)`
runs, so the temporary PDB file is NOT deleted on that exit path. -/
theorem pdb2pqrStep_failure_leaks_tmp :
    (pdb2pqrStep false true).1 =
      .error "FileNotFoundError: No PQR file was produced" ∧
    (pdb2pqrStep false true).2.tmpPDB = true := by
  constructor <;> rfl

/-- C4 (amended): on the success path the temporary PDB file is always
removed and the PQR file survives exactly when `keepPQR`; on the no-output
failure path the block aborts with `FileNotFoundError` and the temporary PDB
file is intentionally left on disk — the error message refers the operator to
it. -/
theorem pdb2pqrStep_file_lifecycle (keepPQR : Bool) :
    (pdb2pqrStep false keepPQR =
      (.error "FileNotFoundError: No PQR file was produced",
       { tmpPDB := true, pqr := false })) ∧
    ((pdb2pqrStep true keepPQR).1 = .ok () ∧
     (pdb2pqrStep true keepPQR).2.tmpPDB = false ∧
     (pdb2pqrStep true keepPQR).2.pqr = keepPQR) := by
  cases keepPQR <;> exact ⟨rfl, rfl, rfl, rfl⟩

/-! ## Claim C1: numerical chain-id replacement -/

/-- C1: with every letter of the pool already taken by an existing chain, the
`while` loop exhausts the pool without finding an unused letter and falls
through with `new_id` holding the last popped — taken — letter; the numeric
chain is silently assigned the duplicate identifier `"A"`, which `"A"` being
the id of the first chain already.  No exception of any kind is raised by the
block itself. -/
theorem renameNumericChains_pool_exhausted :
    renameNumericChains chains53 =
      .ok (availableIdPool.map String.singleton ++ ["A"]) ∧
    "A" ∈ availableIdPool.map String.singleton ∧
    pyIsNumeric "0" = true := by
  refine ⟨?_, by decide, by decide⟩
  rfl

/-! ## Claim C9: ResidueMutator.mutate -/

/-- Once the candidate loop has selected some candidate it never reverts to
`None`, so it ends with a selected candidate. -/
theorem bestCandidate_keeps_some (imp : Superimposer) (fixed : List P3)
    (al : List String) :
    ∀ (cs : List Residue) (minRms : ℚ) (b : Residue × Mat3 × P3),
      (∀ c ∈ cs, al.all (fun a => c.hasAtom a) = true) →
      ∃ out, bestCandidate imp fixed al cs minRms (some b) = .ok (some out) := by
  intro cs
  induction cs with
  | nil => intro minRms b _; exact ⟨b, rfl⟩
  | cons c cs ih =>
    intro minRms b hall
    have hc : al.all (fun a => c.hasAtom a) = true := hall c (List.mem_cons_self _ _)
    have hall' : ∀ q ∈ cs, al.all (fun a => q.hasAtom a) = true :=
      fun q hq => hall q (List.mem_cons_of_mem _ hq)
    simp only [bestCandidate, hc, if_true]
    by_cases hr : imp.rms fixed (al.map (fun a => c.coordOf a)) < minRms
    · rw [if_pos hr]
      exact ih _ _ hall'
    · rw [if_neg hr]
      exact ih _ _ hall'

/-- C9: provided the residue name resolves to a standard parent (`hres`), and
given the residue's and the parent's catalog records, `mutate` returns
Python `False` exactly in the two claimed situations — no candidate
conformers recorded for the parent, or none of the intersected side-chain
atoms present in the residue — and otherwise returns a replacement residue,
for well-formed reference data: a nonempty conformer list whose members
define every intersected atom, and a superimposer whose RMSD stays below the
`99999` sentinel. -/
theorem mutate_spec (M : Mutator) (imp : Superimposer) (residue : Residue)
    (parn : String) (rb : Bool)
    (hres : resolveParent M residue.resname = .ok (some parn)) :
    (M.candidates parn = none → mutate M imp residue rb = .ok none) ∧
    (∀ cands compR compP,
      M.candidates parn = some cands →
      M.components residue.resname = some compR →
      M.components parn = some compP →
      ((presentAtomList (intersectedAtomNames compR compP) residue = [] →
          mutate M imp residue rb = .ok none) ∧
       (presentAtomList (intersectedAtomNames compR compP) residue ≠ [] →
        cands ≠ [] →
        (∀ c ∈ cands, ∀ a ∈ intersectedAtomNames compR compP, c.hasAtom a = true) →
        (∀ fc mc : List P3, imp.rms fc mc < 99999) →
        ∃ r, mutate M imp residue rb = .ok (some r)))) := by
  constructor
  · intro hc
    simp only [mutate, hres, hc]
  · intro cands compR compP hc hcr hcp
    constructor
    · intro hempty
      simp only [mutate, hres, hc, hcr, hcp, hempty, List.isEmpty_nil, if_true]
    · intro hne hcne hall hrms
      obtain ⟨c, cs, rfl⟩ : ∃ c cs, cands = c :: cs := by
        cases cands with
        | nil => exact absurd rfl hcne
        | cons c cs => exact ⟨c, cs, rfl⟩
      have hsubset : ∀ q ∈ c :: cs,
          (presentAtomList (intersectedAtomNames compR compP) residue).all
            (fun a => q.hasAtom a) = true := by
        intro q hq
        rw [List.all_eq_true]
        intro a ha
        exact hall q hq a (List.mem_of_mem_filter ha)
      simp only [mutate, hres, hc, hcr, hcp]
      rw [if_neg (by simpa [List.isEmpty_iff] using hne)]
      have hc1 := hsubset c (List.mem_cons_self _ _)
      have hstep : ∃ out, bestCandidate imp
          (List.map (fun a => residue.coordOf a)
            (presentAtomList (intersectedAtomNames compR compP) residue))
          (presentAtomList (intersectedAtomNames compR compP) residue)
          (c :: cs) 99999 none = .ok (some out) := by
        simp only [bestCandidate, hc1, if_true]
        rw [if_pos (hrms _ _)]
        exact bestCandidate_keeps_some imp _ _ cs _ _
          (fun q hq => hsubset q (List.mem_cons_of_mem _ hq))
      obtain ⟨out, hbc⟩ := hstep
      rw [hbc]
      exact ⟨_, rfl⟩

/-- Witness for `mutate_spec`: a concrete alanine with its side-chain carbon
present and one recorded conformer is successfully replaced. -/
theorem mutate_spec_witness :
    ∃ r, mutate M9 imp9 res9 true = .ok (some r) := by
  have h := (mutate_spec M9 imp9 res9 "ALA" true rfl).2 [cand9] compALA compALA
    rfl rfl rfl
  exact h.2 (by decide) (by simp) (by decide)
    (fun fc mc => by norm_num [imp9])

/-! ## Claims C2 and C3: residue triage at chain level -/

/-- Erasing the residue with one id does not change a lookup by a different
id. -/
theorem find?_eraseP_of_ne (chain : List Residue) (rid rid0 : RId) (hne : rid ≠ rid0) :
    (chain.eraseP (fun r => decide (r.rid = rid0))).find?
        (fun r => decide (r.rid = rid)) =
      chain.find? (fun r => decide (r.rid = rid)) := by
  induction chain with
  | nil => rfl
  | cons r rest ih =>
    by_cases h0 : r.rid = rid0
    · rw [List.eraseP_cons_of_pos (by simp [h0])]
      rw [List.find?_cons_of_neg rest (by simp [h0]; exact fun hc => hne hc.symm)]
    · rw [List.eraseP_cons_of_neg (by simp [h0])]
      by_cases hr : r.rid = rid
      · rw [List.find?_cons_of_pos rest (by simp [hr]),
          List.find?_cons_of_pos (rest.eraseP _) (by simp [hr])]
      · rw [List.find?_cons_of_neg rest (by simp [hr]),
          List.find?_cons_of_neg (rest.eraseP _) (by simp [hr])]
        exact ih

/-- After erasing the residue carrying `rid` from a chain with unique ids,
no residue carries `rid` any more. -/
theorem not_mem_rids_eraseP (chain : List Residue) (rid : RId)
    (hnd : (chain.map Residue.rid).Nodup) :
    rid ∉ (chain.eraseP (fun r => decide (r.rid = rid))).map Residue.rid := by
  induction chain with
  | nil => simp
  | cons r rest ih =>
    rw [List.map_cons, List.nodup_cons] at hnd
    by_cases h0 : r.rid = rid
    · rw [List.eraseP_cons_of_pos (by simp [h0])]
      exact h0 ▸ hnd.1
    · rw [List.eraseP_cons_of_neg (by simp [h0])]
      rw [List.map_cons]
      intro hmem
      rcases List.mem_cons.mp hmem with h | h
      · exact h0 h.symm
      · exact ih hnd.2 h

/-- In a chain with unique ids, looking a member up by its id finds it. -/
theorem find?_rid_of_mem_nodup (chain : List Residue) (residue : Residue)
    (hmem : residue ∈ chain) (hnd : (chain.map Residue.rid).Nodup) :
    chain.find? (fun r => decide (r.rid = residue.rid)) = some residue := by
  induction chain with
  | nil => cases hmem
  | cons r rest ih =>
    rw [List.map_cons, List.nodup_cons] at hnd
    rcases List.mem_cons.mp hmem with h | h
    · subst h
      rw [List.find?_cons_of_pos rest (by simp)]
    · by_cases hr : r.rid = residue.rid
      · exact absurd (hr ▸ List.mem_map_of_mem Residue.rid h) hnd.1
      · rw [List.find?_cons_of_neg rest (by simp [hr])]
        exact ih h hnd.2

/-- A residue whose decision is a logged removal contributes its id and
reason to the staged removal list. -/
theorem collectTriage_rem_mem (G : String → Option ChemComponent) (M : Mutator)
    (s : String → Bool) :
    ∀ (chain : List Residue) (rep : List RId) (rem : List (RId × Option String))
      (residue : Residue) (msg : String),
      collectTriage G M s chain = .ok (rep, rem) →
      residue ∈ chain →
      triageResidue G M s residue = .ok (.removeLogged msg) →
      (residue.rid, some msg) ∈ rem := by
  intro chain
  induction chain with
  | nil => intro rep rem residue msg _ hmem _; cases hmem
  | cons r rest ih =>
    intro rep rem residue msg h hmem htri
    simp only [collectTriage] at h
    rcases List.mem_cons.mp hmem with heq | hmem'
    · subst heq
      rw [htri] at h
      cases hrest : collectTriage G M s rest with
      | error e => rw [hrest] at h; simp at h
      | ok pr =>
        rw [hrest] at h
        obtain ⟨rep', rem'⟩ := pr
        simp at h
        rw [← h.2]
        exact List.mem_cons_self _ _
    · cases htr : triageResidue G M s r with
      | error e => rw [htr] at h; simp at h
      | ok d =>
        rw [htr] at h
        cases hrest : collectTriage G M s rest with
        | error e => rw [hrest] at h; simp at h
        | ok pr =>
          rw [hrest] at h
          obtain ⟨rep', rem'⟩ := pr
          have hin : (residue.rid, some msg) ∈ rem' := ih rep' rem' residue msg hrest hmem' htri
          cases d with
          | keep => simp at h; rw [← h.2]; exact hin
          | replace => simp at h; rw [← h.2]; exact hin
          | removeSilent => simp at h; rw [← h.2]; exact List.mem_cons_of_mem _ hin
          | removeLogged m2 => simp at h; rw [← h.2]; exact List.mem_cons_of_mem _ hin

/-- The staged replacement ids and removal ids are selections (sublists) of
the chain's id sequence. -/
theorem collectTriage_sublist (G : String → Option ChemComponent) (M : Mutator)
    (s : String → Bool) :
    ∀ (chain : List Residue) (rep : List RId) (rem : List (RId × Option String)),
      collectTriage G M s chain = .ok (rep, rem) →
      rep.Sublist (chain.map Residue.rid) ∧
      (rem.map Prod.fst).Sublist (chain.map Residue.rid) := by
  intro chain
  induction chain with
  | nil =>
    intro rep rem h
    simp only [collectTriage] at h
    simp at h
    rw [h.1, h.2]
    simp
  | cons r rest ih =>
    intro rep rem h
    simp only [collectTriage] at h
    cases htr : triageResidue G M s r with
    | error e => rw [htr] at h; simp at h
    | ok d =>
      rw [htr] at h
      cases hrest : collectTriage G M s rest with
      | error e => rw [hrest] at h; simp at h
      | ok pr =>
        rw [hrest] at h
        obtain ⟨rep', rem'⟩ := pr
        obtain ⟨hs1, hs2⟩ := ih rep' rem' hrest
        rw [List.map_cons]
        cases d with
        | keep =>
          simp at h
          rw [← h.1, ← h.2]
          exact ⟨hs1.cons _, hs2.cons _⟩
        | replace =>
          simp at h
          rw [← h.1, ← h.2]
          exact ⟨hs1.cons₂ _, hs2.cons _⟩
        | removeSilent =>
          simp at h
          rw [← h.1, ← h.2]
          exact ⟨hs1.cons _, by rw [List.map_cons]; exact hs2.cons₂ _⟩
        | removeLogged m2 =>
          simp at h
          rw [← h.1, ← h.2]
          exact ⟨hs1.cons _, by rw [List.map_cons]; exact hs2.cons₂ _⟩

/-- With unique chain ids, no id is staged both for replacement and for
removal. -/
theorem collectTriage_disjoint (G : String → Option ChemComponent) (M : Mutator)
    (s : String → Bool) :
    ∀ (chain : List Residue) (rep : List RId) (rem : List (RId × Option String)),
      collectTriage G M s chain = .ok (rep, rem) →
      (chain.map Residue.rid).Nodup →
      ∀ x ∈ rep, x ∉ rem.map Prod.fst := by
  intro chain
  induction chain with
  | nil =>
    intro rep rem h _
    simp only [collectTriage] at h
    simp at h
    rw [h.1]
    intro x hx
    cases hx
  | cons r rest ih =>
    intro rep rem h hnd
    rw [List.map_cons, List.nodup_cons] at hnd
    simp only [collectTriage] at h
    cases htr : triageResidue G M s r with
    | error e => rw [htr] at h; simp at h
    | ok d =>
      rw [htr] at h
      cases hrest : collectTriage G M s rest with
      | error e => rw [hrest] at h; simp at h
      | ok pr =>
        rw [hrest] at h
        obtain ⟨rep', rem'⟩ := pr
        obtain ⟨hs1, hs2⟩ := collectTriage_sublist G M s rest rep' rem' hrest
        cases d with
        | keep =>
          simp at h
          rw [← h.1, ← h.2]
          exact ih rep' rem' hrest hnd.2
        | replace =>
          simp at h
          rw [← h.1, ← h.2]
          intro x hx
          rcases List.mem_cons.mp hx with hxr | hxr
          · subst hxr
            intro hcon
            exact hnd.1 (hs2.subset hcon)
          · exact ih rep' rem' hrest hnd.2 x hxr
        | removeSilent =>
          simp at h
          rw [← h.1, ← h.2]
          intro x hx
          rw [List.map_cons]
          intro hcon
          rcases List.mem_cons.mp hcon with hc | hc
          · simp only [] at hc
            exact hnd.1 (hc ▸ hs1.subset hx)
          · exact ih rep' rem' hrest hnd.2 x hx hc
        | removeLogged m2 =>
          simp at h
          rw [← h.1, ← h.2]
          intro x hx
          rw [List.map_cons]
          intro hcon
          rcases List.mem_cons.mp hcon with hc | hc
          · simp only [] at hc
            exact hnd.1 (hc ▸ hs1.subset hx)
          · exact ih rep' rem' hrest hnd.2 x hx hc

/-- The removal pass only removes: the resulting id sequence is a sublist of
the original. -/
theorem removePhase_rids_sublist (q : Bool) :
    ∀ (rem : List (RId × Option String)) (chain chain2 : List Residue)
      (logs : List (String × List String)),
      removePhase q rem chain = .ok (chain2, logs) →
      (chain2.map Residue.rid).Sublist (chain.map Residue.rid) := by
  intro rem
  induction rem with
  | nil =>
    intro chain chain2 logs h
    simp only [removePhase] at h
    simp at h
    rw [h.1]
  | cons p rest ih =>
    intro chain chain2 logs h
    obtain ⟨rid, reason⟩ := p
    simp only [removePhase] at h
    cases hf : chain.find? (fun r => decide (r.rid = rid)) with
    | none => rw [hf] at h; simp at h
    | some res =>
      rw [hf] at h
      cases hrec : removePhase q rest (chain.eraseP (fun r => decide (r.rid = rid))) with
      | error e => rw [hrec] at h; simp at h
      | ok pr =>
        rw [hrec] at h
        obtain ⟨chainF, logsR⟩ := pr
        simp at h
        have h1 := ih _ _ _ hrec
        have h2 : ((chain.eraseP (fun r => decide (r.rid = rid))).map Residue.rid).Sublist
            (chain.map Residue.rid) := (List.eraseP_sublist chain).map Residue.rid
        rw [← h.1]
        exact h1.trans h2
  
/-- Every id staged for removal is gone from the chain the removal pass
returns (unique ids). -/
theorem removePhase_not_mem (q : Bool) :
    ∀ (rem : List (RId × Option String)) (chain chain2 : List Residue)
      (logs : List (String × List String)) (rid : RId),
      removePhase q rem chain = .ok (chain2, logs) →
      (chain.map Residue.rid).Nodup →
      rid ∈ rem.map Prod.fst →
      rid ∉ chain2.map Residue.rid := by
  intro rem
  induction rem with
  | nil => intro chain chain2 logs rid _ _ hmem; cases hmem
  | cons p rest ih =>
    intro chain chain2 logs rid h hnd hmem
    obtain ⟨rid0, reason0⟩ := p
    simp only [removePhase] at h
    cases hf : chain.find? (fun r => decide (r.rid = rid0)) with
    | none => rw [hf] at h; simp at h
    | some res =>
      rw [hf] at h
      cases hrec : removePhase q rest (chain.eraseP (fun r => decide (r.rid = rid0))) with
      | error e => rw [hrec] at h; simp at h
      | ok pr =>
        rw [hrec] at h
        obtain ⟨chainF, logsR⟩ := pr
        simp at h
        rw [← h.1]
        have hndE : ((chain.eraseP (fun r => decide (r.rid = rid0))).map Residue.rid).Nodup :=
          hnd.sublist ((List.eraseP_sublist chain).map Residue.rid)
        rcases List.mem_cons.mp hmem with hc | hc
        · simp only [] at hc
          subst hc
          intro hcon
          exact not_mem_rids_eraseP chain rid hnd
            ((removePhase_rids_sublist q rest _ _ _ hrec).subset hcon)
        · exact ih _ _ _ rid hrec hndE hc

/-- A staged removal with a recorded reason emits the log entry carrying the
looked-up resname, provided no earlier staged id collides with it. -/
theorem removePhase_log_mem :
    ∀ (rem : List (RId × Option String)) (chain chain2 : List Residue)
      (logs : List (String × List String)) (rid : RId) (msg : String) (res : Residue),
      removePhase false rem chain = .ok (chain2, logs) →
      (rem.map Prod.fst).Nodup →
      (rid, some msg) ∈ rem →
      chain.find? (fun r => decide (r.rid = rid)) = some res →
      (msg, [res.resname]) ∈ logs := by
  intro rem
  induction rem with
  | nil => intro chain chain2 logs rid msg res _ _ hmem _; cases hmem
  | cons p rest ih =>
    intro chain chain2 logs rid msg res h hnd hmem hfind
    obtain ⟨rid0, reason0⟩ := p
    rw [List.map_cons, List.nodup_cons] at hnd
    simp only [removePhase] at h
    cases hf : chain.find? (fun r => decide (r.rid = rid0)) with
    | none => rw [hf] at h; simp at h
    | some res0 =>
      rw [hf] at h
      cases hrec : removePhase false rest (chain.eraseP (fun r => decide (r.rid = rid0))) with
      | error e => rw [hrec] at h; simp at h
      | ok pr =>
        rw [hrec] at h
        obtain ⟨chainF, logsR⟩ := pr
        simp at h
        rw [← h.2]
        rcases List.mem_cons.mp hmem with hc | hc
        · have hrid : rid = rid0 := congrArg Prod.fst hc
          have hreason : reason0 = some msg := (congrArg Prod.snd hc).symm
          subst hrid
          have hres : res0 = res := by
            rw [hfind] at hf
            exact (Option.some.injEq _ _ ▸ hf).symm
          subst hres
          subst hreason
          exact List.mem_append_left _ (List.mem_singleton.mpr rfl)
        · have hridne : rid ≠ rid0 := by
            intro hcon
            have hmm : rid ∈ rest.map Prod.fst := List.mem_map_of_mem Prod.fst hc
            rw [hcon] at hmm
            exact hnd.1 hmm
          have hfindE : (chain.eraseP (fun r => decide (r.rid = rid0))).find?
              (fun r => decide (r.rid = rid)) = some res := by
            rw [find?_eraseP_of_ne chain rid rid0 hridne]
            exact hfind
          refine List.mem_append_right _ ?_
          exact ih _ _ _ rid msg res hrec hnd.2 hc hfindE

/-- In-place replacement of the residue carrying `rid0` keeps any other id
absent, provided the replacement's id differs from it too. -/
theorem replaceFirstById_not_mem (chain : List Residue) (rid0 : RId) (rep : Residue)
    (x : RId) (hx : x ∉ chain.map Residue.rid) (hne : x ≠ rep.rid) :
    x ∉ (replaceFirstById chain rid0 rep).map Residue.rid := by
  induction chain with
  | nil => simp [replaceFirstById]
  | cons r rest ih =>
    rw [List.map_cons] at hx
    have hx1 : x ≠ r.rid := fun hc => hx (hc ▸ List.mem_cons_self _ _)
    have hx2 : x ∉ rest.map Residue.rid := fun hc => hx (List.mem_cons_of_mem _ hc)
    by_cases h0 : r.rid = rid0
    · rw [replaceFirstById, if_pos h0, List.map_cons]
      intro hcon
      rcases List.mem_cons.mp hcon with hc | hc
      · exact hne hc
      · exact hx2 hc
    · rw [replaceFirstById, if_neg h0, List.map_cons]
      intro hcon
      rcases List.mem_cons.mp hcon with hc | hc
      · exact hx1 hc
      · exact ih hx2 hc

theorem setResidueId_rid (r : Residue) (rid : RId) : (setResidueId r rid).rid = rid := rfl

/-- The replacement pass introduces no id outside its staged list: an id
absent from the chain and not staged for replacement stays absent. -/
theorem replacePhase_not_mem (M : Mutator) (imp : Superimposer) (q : Bool) :
    ∀ (rep : List RId) (chain chain3 : List Residue)
      (logs : List (String × List String)) (rid : RId),
      replacePhase M imp q rep chain = .ok (chain3, logs) →
      rid ∉ chain.map Residue.rid →
      rid ∉ rep →
      rid ∉ chain3.map Residue.rid := by
  intro rep
  induction rep with
  | nil =>
    intro chain chain3 logs rid h hni _
    simp only [replacePhase] at h
    simp at h
    rw [← h.1]
    exact hni
  | cons rid0 rest ih =>
    intro chain chain3 logs rid h hni hnr
    have hne0 : rid ≠ rid0 := fun hc => hnr (hc ▸ List.mem_cons_self _ _)
    have hnr' : rid ∉ rest := fun hc => hnr (List.mem_cons_of_mem _ hc)
    simp only [replacePhase] at h
    cases hf : chain.find? (fun r => decide (r.rid = rid0)) with
    | none => rw [hf] at h; simp at h
    | some res =>
      rw [hf] at h
      dsimp only at h
      cases hm : mutate M imp res true with
      | error e => rw [hm] at h; simp at h
      | ok o =>
        rw [hm] at h
        cases o with
        | some repl =>
          dsimp only at h
          cases hrec : replacePhase M imp q rest
              (replaceFirstById chain rid0 (setResidueId repl rid0)) with
          | error e => rw [hrec] at h; simp at h
          | ok pr =>
            rw [hrec] at h
            obtain ⟨chainF, logsR⟩ := pr
            simp at h
            rw [← h.1]
            refine ih _ _ _ rid hrec ?_ hnr'
            exact replaceFirstById_not_mem chain rid0 _ rid hni
              (by rw [setResidueId_rid]; exact hne0)
        | none =>
          dsimp only at h
          cases hrec : replacePhase M imp q rest
              (chain.eraseP (fun r => decide (r.rid = rid0))) with
          | error e => rw [hrec] at h; simp at h
          | ok pr =>
            rw [hrec] at h
            obtain ⟨chainF, logsR⟩ := pr
            simp at h
            rw [← h.1]
            refine ih _ _ _ rid hrec ?_ hnr'
            intro hcon
            exact hni (((List.eraseP_sublist chain).map Residue.rid).subset hcon)

/-- The triage decision for an in-catalog, sufficiently complete residue that
is not standard, not a water, not a solvent match and not modified: logged
removal as unrecognized. -/
theorem triageResidue_unrecognized (G : String → Option ChemComponent) (M : Mutator)
    (s : String → Bool) (residue : Residue) (comp : ChemComponent)
    (hG : G (pyStrip residue.resname) = some comp)
    (hden : comp.heavy_atom_count - 1 ≠ 0)
    (hratio : ¬ ((heavyAtomCount residue : ℚ) / ((comp.heavy_atom_count : ℚ) - 1) < 3/5))
    (hstd : M.standardP (pyStrip residue.resname) = false)
    (hhoh : pyStrip residue.resname ≠ "HOH")
    (hwat : pyStrip residue.resname ≠ "WAT")
    (hsol : s (pyStrip residue.resname) = false)
    (hmod : M.modifiedP (pyStrip residue.resname) = false) :
    triageResidue G M s residue =
      .ok (.removeLogged "removed unrecognized residue: %s") := by
  simp only [triageResidue, hG]
  rw [if_neg hden, if_neg hratio, if_neg (by simp [hstd]),
    if_neg (fun hor => hor.elim hhoh hwat), if_neg (by simp [hsol]),
    if_neg (by simp [hmod])]

/-- The triage decision for a sufficiently complete water: silent removal. -/
theorem triageResidue_water (G : String → Option ChemComponent) (M : Mutator)
    (s : String → Bool) (residue : Residue) (comp : ChemComponent)
    (hname : pyStrip residue.resname = "HOH")
    (hG : G "HOH" = some comp)
    (hden : comp.heavy_atom_count - 1 ≠ 0)
    (hratio : ¬ ((heavyAtomCount residue : ℚ) / ((comp.heavy_atom_count : ℚ) - 1) < 3/5))
    (hstd : M.standardP "HOH" = false) :
    triageResidue G M s residue = .ok .removeSilent := by
  simp only [triageResidue, hname, hG]
  rw [if_neg hden, if_neg hratio, if_neg (by simp [hstd]), if_pos (Or.inl trivial)]

/-- C2 (amended): a residue whose (stripped) name is in the catalog, passes
the completeness test, and is neither standard nor a water nor a solvent
match nor modified, is removed from its chain by a successful clean with the
reason "removed unrecognized residue" logged; a residue whose name is absent
from the chemical-component catalog instead makes the triage raise `KeyError`
at the completeness computation (`data.chem_components[resn]`, line 212). -/
theorem processChain_unrecognized_spec (G : String → Option ChemComponent)
    (M : Mutator) (imp : Superimposer) (s : String → Bool) (residue : Residue)
    (comp : ChemComponent) (chain : List Residue)
    (hmem : residue ∈ chain)
    (hnodup : (chain.map Residue.rid).Nodup)
    (hG : G (pyStrip residue.resname) = some comp)
    (hden : comp.heavy_atom_count - 1 ≠ 0)
    (hratio : ¬ ((heavyAtomCount residue : ℚ) / ((comp.heavy_atom_count : ℚ) - 1) < 3/5))
    (hstd : M.standardP (pyStrip residue.resname) = false)
    (hhoh : pyStrip residue.resname ≠ "HOH")
    (hwat : pyStrip residue.resname ≠ "WAT")
    (hsol : s (pyStrip residue.resname) = false)
    (hmod : M.modifiedP (pyStrip residue.resname) = false) :
    (∀ chain3 logs,
        processChain G M imp s false chain = .ok (chain3, logs) →
        residue.rid ∉ chain3.map Residue.rid ∧
        ("removed unrecognized residue: %s", [residue.resname]) ∈ logs) ∧
    (∀ (G2 : String → Option ChemComponent) (M2 : Mutator) (s2 : String → Bool)
        (res2 : Residue), G2 (pyStrip res2.resname) = none →
        triageResidue G2 M2 s2 res2 = .error "KeyError") := by
  constructor
  · intro chain3 logs h
    have htri := triageResidue_unrecognized G M s residue comp hG hden hratio hstd
      hhoh hwat hsol hmod
    simp only [processChain] at h
    cases hcol : collectTriage G M s chain with
    | error e => rw [hcol] at h; simp at h
    | ok pr =>
      rw [hcol] at h
      obtain ⟨rep, rem⟩ := pr
      dsimp only at h
      cases hremp : removePhase false rem chain with
      | error e => rw [hremp] at h; simp at h
      | ok pr2 =>
        rw [hremp] at h
        obtain ⟨chain2, logsRem⟩ := pr2
        dsimp only at h
        cases hrepp : replacePhase M imp false rep chain2 with
        | error e => rw [hrepp] at h; simp at h
        | ok pr3 =>
          rw [hrepp] at h
          obtain ⟨c3, logsRep⟩ := pr3
          simp at h
          obtain ⟨hc3, hlogs⟩ := h
          subst hc3
          subst hlogs
          have hin : (residue.rid, some "removed unrecognized residue: %s") ∈ rem :=
            collectTriage_rem_mem G M s chain rep rem residue _ hcol hmem htri
          obtain ⟨hsub1, hsub2⟩ := collectTriage_sublist G M s chain rep rem hcol
          have hremnodup : (rem.map Prod.fst).Nodup := hnodup.sublist hsub2
          have hfind := find?_rid_of_mem_nodup chain residue hmem hnodup
          have hlog : ("removed unrecognized residue: %s", [residue.resname]) ∈ logsRem :=
            removePhase_log_mem rem chain chain2 logsRem residue.rid _ residue hremp
              hremnodup hin hfind
          have hmemid : residue.rid ∈ rem.map Prod.fst :=
            List.mem_map_of_mem Prod.fst hin
          have hnot2 : residue.rid ∉ chain2.map Residue.rid :=
            removePhase_not_mem false rem chain chain2 logsRem residue.rid hremp
              hnodup hmemid
          have hnotrep : residue.rid ∉ rep := fun hx =>
            collectTriage_disjoint G M s chain rep rem hcol hnodup residue.rid hx hmemid
          exact ⟨replacePhase_not_mem M imp false rep chain2 c3 logsRep residue.rid
              hrepp hnot2 hnotrep,
            List.mem_append_left _ hlog⟩
  · intro G2 M2 s2 res2 h2
    simp only [triageResidue, h2]

/-- C2 counterexample: cleaning a chain holding a residue whose name is
absent from the chemical-component catalog does not remove it with a log —
the triage raises `KeyError` at the completeness computation and the clean
aborts. -/
theorem processChain_unknown_name_keyerror :
    processChain (fun _ => none) M9 imp9 (fun _ => false) false [resXYZ] =
      .error "KeyError" := rfl

/-- Witness for `processChain_unrecognized_spec`: a concrete catalogued but
unrecognized residue is removed with the logged reason. -/
theorem processChain_unrecognized_spec_witness :
    processChain GU M9 imp9 (fun _ => false) false [resUNK] =
      .ok ([], [("removed unrecognized residue: %s", ["UNK"])]) ∧
    resUNK.rid ∉ (([] : List Residue)).map Residue.rid ∧
    ("removed unrecognized residue: %s", [resUNK.resname]) ∈
      [("removed unrecognized residue: %s", ["UNK"])] := by
  have hratio : ¬ ((heavyAtomCount resUNK : ℚ) /
      ((compUNK.heavy_atom_count : ℚ) - 1) < 3/5) := by
    norm_num [show heavyAtomCount resUNK = 1 from rfl,
      show compUNK.heavy_atom_count = 2 from rfl]
  have htri := triageResidue_unrecognized GU M9 (fun _ => false) resUNK compUNK
    rfl (by decide) hratio (by decide) (by decide) (by decide) rfl (by decide)
  have hrun : processChain GU M9 imp9 (fun _ => false) false [resUNK] =
      .ok ([], [("removed unrecognized residue: %s", ["UNK"])]) := by
    simp only [processChain, collectTriage, htri, removePhase, replacePhase]
    norm_num [List.find?, List.eraseP, resUNK]
  refine ⟨hrun, ?_⟩
  exact (processChain_unrecognized_spec GU M9 imp9 (fun _ => false) resUNK compUNK
    [resUNK] (by simp) (by simp) rfl (by decide) hratio (by decide) (by decide)
    (by decide) rfl (by decide)).1 [] _ hrun

/-- C3 (amended): cleaning a chain of water residues (each named `HOH` and
passing the completeness test against the catalog record for `HOH`) removes
every one of them and emits NO log entry — water removal is staged with a
`None` reason (line 221), so the logging branch (line 230) is skipped. -/
theorem processChain_water_silent (G : String → Option ChemComponent) (M : Mutator)
    (imp : Superimposer) (s : String → Bool) (q : Bool) (chain : List Residue)
    (comp : ChemComponent)
    (hG : G "HOH" = some comp)
    (hden : comp.heavy_atom_count - 1 ≠ 0)
    (hstd : M.standardP "HOH" = false)
    (hall : ∀ r ∈ chain, pyStrip r.resname = "HOH" ∧
      ¬ ((heavyAtomCount r : ℚ) / ((comp.heavy_atom_count : ℚ) - 1) < 3/5)) :
    processChain G M imp s q chain = .ok ([], []) := by
  have hcol : ∀ ch : List Residue,
      (∀ r ∈ ch, pyStrip r.resname = "HOH" ∧
        ¬ ((heavyAtomCount r : ℚ) / ((comp.heavy_atom_count : ℚ) - 1) < 3/5)) →
      collectTriage G M s ch = .ok ([], ch.map (fun r => (r.rid, none))) := by
    intro ch
    induction ch with
    | nil => intro _; rfl
    | cons r rest ih =>
      intro hallc
      have hr := hallc r (List.mem_cons_self _ _)
      have htri : triageResidue G M s r = .ok .removeSilent :=
        triageResidue_water G M s r comp hr.1 hG hden hr.2 hstd
      have hrest := ih (fun a ha => hallc a (List.mem_cons_of_mem _ ha))
      simp only [collectTriage, htri, hrest, List.map_cons]
  have hrem : ∀ ch : List Residue,
      removePhase q (ch.map (fun r => (r.rid, none))) ch = .ok ([], []) := by
    intro ch
    induction ch with
    | nil => rfl
    | cons a rest ih =>
      simp only [List.map_cons, removePhase]
      rw [List.find?_cons_of_pos rest (by simp)]
      dsimp only
      rw [List.eraseP_cons_of_pos (by simp)]
      rw [ih]
      rfl
  simp only [processChain, hcol chain hall, hrem chain, replacePhase]
  rfl

/-- C3 counterexample: cleaning a chain containing the water residue `HOH`
does remove it, but the log is empty — no log entry records the removal. -/
theorem processChain_water_no_log_entry :
    processChain catalogC M9 imp9 (fun _ => false) false [resHOH] = .ok ([], []) := by
  have hratio : ¬ ((heavyAtomCount resHOH : ℚ) /
      ((compHOH.heavy_atom_count : ℚ) - 1) < 3/5) := by
    norm_num [show heavyAtomCount resHOH = 1 from rfl,
      show compHOH.heavy_atom_count = 2 from rfl]
  have htri : triageResidue catalogC M9 (fun _ => false) resHOH = .ok .removeSilent :=
    triageResidue_water catalogC M9 (fun _ => false) resHOH compHOH rfl rfl
      (by decide) hratio (by decide)
  simp only [processChain, collectTriage, htri, removePhase, replacePhase]
  norm_num [List.find?, List.eraseP]

/-- Witness for `processChain_water_silent`: a chain of two waters is fully
removed with an empty log. -/
theorem processChain_water_silent_witness :
    processChain catalogC M9 imp9 (fun _ => false) false [resHOH, resHOH2] =
      .ok ([], []) := by
  refine processChain_water_silent catalogC M9 imp9 (fun _ => false) false
    [resHOH, resHOH2] compHOH rfl (by decide) (by decide) ?_
  intro r hr
  have hratio2 : ∀ res : Residue, heavyAtomCount res = 1 →
      ¬ ((heavyAtomCount res : ℚ) / ((compHOH.heavy_atom_count : ℚ) - 1) < 3/5) := by
    intro res hres
    rw [hres]
    norm_num [show compHOH.heavy_atom_count = 2 from rfl]
  rcases List.mem_cons.mp hr with h | h
  · subst h; exact ⟨rfl, hratio2 _ rfl⟩
  · rcases List.mem_cons.mp h with h2 | h2
    · subst h2; exact ⟨rfl, hratio2 _ rfl⟩
    · cases h2
